import Mathlib

/-!
Verification development for the staged 3D-scene generation service
(`services/geminiService.ts` and `types.ts` of the repository).

The service is shallowly embedded: the JSON repair utility
(`cleanAndParseJSON`), the image-generation client (`generateSingleView`),
the reference image set builder (`generateReferenceImages`), the staged
workflow orchestrator (`generateSceneWorkflow`) and the batch wrapper
(`generateSceneFromPrompt`) become Lean functions.  Network effects are
modelled by passing the environment's responses as explicit oracle
arguments; the async generator becomes a function returning the list of
emitted progress events together with the terminal error, if any.

`JSON.parse` (a JavaScript builtin) is modelled by an executable
recursive-descent parser for the JSON grammar.  JavaScript numbers are
modelled as exact decimal values `mantissa / 10 ^ scale` in canonical form
(trailing factors of ten stripped), which coincides with JavaScript number
equality on all JSON decimal literals appearing here; IEEE-754 rounding is
not modelled since the source never performs float arithmetic on parsed
numbers.  Strings are modelled as Lean lists of unicode scalars; `\uXXXX`
escapes denoting surrogate halves are rejected by the model (the source
never produces them), and object fields keep their textual order.
-/

/-- The JSON whitespace characters accepted by `JSON.parse`. -/
def isJsonWs (c : Char) : Bool :=
  decide (c.toNat = 0x20 ∨ c.toNat = 0x9 ∨ c.toNat = 0xa ∨ c.toNat = 0xd)

/-- The JavaScript whitespace class, as matched by `\s` in a regular
expression and removed by `String.prototype.trim`. -/
def isJsWs (c : Char) : Bool :=
  decide (c.toNat = 0x9 ∨ c.toNat = 0xa ∨ c.toNat = 0xb ∨ c.toNat = 0xc ∨
    c.toNat = 0xd ∨ c.toNat = 0x20 ∨ c.toNat = 0xa0 ∨ c.toNat = 0x1680 ∨
    (0x2000 ≤ c.toNat ∧ c.toNat ≤ 0x200a) ∨ c.toNat = 0x2028 ∨
    c.toNat = 0x2029 ∨ c.toNat = 0x202f ∨ c.toNat = 0x205f ∨
    c.toNat = 0x3000 ∨ c.toNat = 0xfeff)

/-- Decimal digit test (`0`–`9`). -/
def isDigitC (c : Char) : Bool :=
  decide (0x30 ≤ c.toNat ∧ c.toNat ≤ 0x39)

/-- Characters that may begin a JSON value. -/
def isValueStart (c : Char) : Bool :=
  c == '{' || c == '[' || c == '"' || c == 't' || c == 'f' || c == 'n' ||
  c == '-' || isDigitC c

/-- Characters that may end the text consumed for a JSON value. -/
def isValueEnd (c : Char) : Bool :=
  c == '}' || c == ']' || c == '"' || c == 'e' || c == 'l' || isDigitC c

/-- Characters that would extend a JSON number if they followed it. -/
def isNumCont (c : Char) : Bool :=
  isDigitC c || c == '.' || c == 'e' || c == 'E'

/-- Drop leading JSON whitespace. -/
def skipWs (cs : List Char) : List Char := cs.dropWhile isJsonWs

/-- JavaScript `String.prototype.trim` on a character list. -/
def jsTrim (cs : List Char) : List Char :=
  ((cs.dropWhile isJsWs).reverse.dropWhile isJsWs).reverse

/-- Parsed JSON values.  Numbers are canonical decimal pairs: `num m k`
denotes `m / 10 ^ k` with the trailing factors of ten stripped from `m`.
Object fields are kept in textual order. -/
inductive Json where
  | null : Json
  | bool (b : Bool) : Json
  | num (mantissa : Int) (scale : Nat) : Json
  | str (s : String) : Json
  | arr (elems : List Json) : Json
  | obj (fields : List (String × Json)) : Json
deriving Repr

/-- Value of a digit character. -/
def digitVal (c : Char) : Nat := c.toNat - 0x30

/-- Interpret a digit list as a natural number (most significant first). -/
def digitsToNat : List Char → Nat → Nat
  | [], acc => acc
  | c :: cs, acc => digitsToNat cs (acc * 10 + digitVal c)

/-- Strip trailing factors of ten from a decimal `mantissa / 10 ^ scale`
pair, producing the canonical representation of the denoted number. -/
def canonNum : Int → Nat → Int × Nat
  | m, 0 => (m, 0)
  | m, k + 1 => if m % 10 = 0 then canonNum (m / 10) k else (m, k + 1)

/-- The number denoted by a sign, integer digits, fraction digits and a
decimal exponent, in canonical `mantissa / 10 ^ scale` form. -/
def numValue (neg : Bool) (ids fds : List Char) (e : Int) : Int × Nat :=
  let m0 : Int := Int.ofNat (digitsToNat (ids ++ fds) 0)
  let m1 : Int := if neg then -m0 else m0
  if 0 ≤ e then canonNum (m1 * 10 ^ e.toNat) fds.length
  else canonNum m1 (fds.length + (-e).toNat)

/-- Split a nonempty run of leading digits; `none` when there is none. -/
def parseDigits (cs : List Char) : Option (List Char × List Char) :=
  match cs.takeWhile isDigitC with
  | [] => none
  | ds => some (ds, cs.dropWhile isDigitC)

/-- The integer part of a JSON number: `0`, or a nonzero leading digit
followed by further digits (leading zeros are rejected, as in
`JSON.parse`). -/
def parseIntPart (cs : List Char) : Option (List Char × List Char) :=
  match cs with
  | [] => none
  | c :: rest =>
    if c = '0' then
      match rest with
      | d :: _ => if isDigitC d then none else some (['0'], rest)
      | [] => some (['0'], [])
    else if isDigitC c then parseDigits cs
    else none

/-- The optional fraction part of a JSON number (`.` plus digits). -/
def parseFracPart (cs : List Char) : Option (List Char × List Char) :=
  match cs with
  | '.' :: rest => parseDigits rest
  | _ => some ([], cs)

/-- The digits of an exponent, with the sign already consumed. -/
def expDigits (eneg : Bool) (r2 : List Char) : Option (Int × List Char) :=
  match parseDigits r2 with
  | some (ds, r3) =>
    some ((if eneg then -Int.ofNat (digitsToNat ds 0)
           else Int.ofNat (digitsToNat ds 0)), r3)
  | none => none

/-- The optional exponent part of a JSON number. -/
def parseExpPart (cs : List Char) : Option (Int × List Char) :=
  match cs with
  | c :: rest =>
    if c = 'e' ∨ c = 'E' then
      match rest with
      | s :: r2 =>
        if s = '+' then expDigits false r2
        else if s = '-' then expDigits true r2
        else expDigits false (s :: r2)
      | [] => expDigits false []
    else some (0, cs)
  | [] => some (0, [])

/-- A JSON number after the optional leading sign: integer part, optional
fraction, optional exponent. -/
def parseNumTail (neg : Bool) (cs1 : List Char) :
    Option ((Int × Nat) × List Char) :=
  match parseIntPart cs1 with
  | none => none
  | some (ids, r2) =>
    match parseFracPart r2 with
    | none => none
    | some (fds, r3) =>
      match parseExpPart r3 with
      | none => none
      | some (ez, r4) => some (numValue neg ids fds ez, r4)

/-- A complete JSON number, starting at the optional sign. -/
def parseNumber (cs : List Char) : Option ((Int × Nat) × List Char) :=
  match cs with
  | '-' :: r => parseNumTail true r
  | _ => parseNumTail false cs

/-- Hexadecimal digit value, or `none`. -/
def hexVal (c : Char) : Option Nat :=
  if isDigitC c then some (c.toNat - 0x30)
  else if 0x61 ≤ c.toNat ∧ c.toNat ≤ 0x66 then some (c.toNat - 0x61 + 10)
  else if 0x41 ≤ c.toNat ∧ c.toNat ≤ 0x46 then some (c.toNat - 0x41 + 10)
  else none

/-- Translation of a single-character string escape. -/
def escChar (c : Char) : Option Char :=
  if c = '"' then some '"'
  else if c = '\\' then some '\\'
  else if c = '/' then some '/'
  else if c = 'b' then some '\x08'
  else if c = 'f' then some '\x0c'
  else if c = 'n' then some '\n'
  else if c = 'r' then some '\r'
  else if c = 't' then some '\t'
  else none

/-- The body of a JSON string, starting after the opening quote and
consuming through the closing quote.  Returns the decoded characters and
the remaining input.  Raw control characters are rejected; `\uXXXX`
escapes are decoded when they denote a unicode scalar. -/
def parseStringBody : List Char → Option (List Char × List Char)
  | [] => none
  | c :: rest =>
    if c = '"' then some ([], rest)
    else if c = '\\' then
      match rest with
      | [] => none
      | e :: rest2 =>
        if e = 'u' then
          match rest2 with
          | h1 :: h2 :: h3 :: h4 :: rest3 =>
            match hexVal h1, hexVal h2, hexVal h3, hexVal h4 with
            | some v1, some v2, some v3, some v4 =>
              let n := ((v1 * 16 + v2) * 16 + v3) * 16 + v4
              if n < 0xd800 ∨ (0xe000 ≤ n ∧ n < 0x110000) then
                match parseStringBody rest3 with
                | some (s, r) =>
                  some (Char.ofNat n :: s, r)
                | none => none
              else none
            | _, _, _, _ => none
          | _ => none
        else
          match escChar e with
          | some ec =>
            match parseStringBody rest2 with
            | some (s, r) => some (ec :: s, r)
            | none => none
          | none => none
    else if c.toNat < 0x20 then none
    else
      match parseStringBody rest with
      | some (s, r) => some (c :: s, r)
      | none => none

mutual

/-- A JSON value, starting at a non-whitespace character.  The first
argument is recursion fuel; `jsonParse` supplies enough for any input. -/
def parseValue : Nat → List Char → Option (Json × List Char)
  | 0, _ => none
  | f + 1, cs =>
    match cs with
    | [] => none
    | c :: rest =>
      if c = '{' then
        match skipWs rest with
        | [] => none
        | z :: r2 =>
          if z = '}' then some (.obj [], r2)
          else
            match parseMembers f (z :: r2) with
            | some (ms, r) => some (.obj ms, r)
            | none => none
      else if c = '[' then
        match skipWs rest with
        | [] => none
        | z :: r2 =>
          if z = ']' then some (.arr [], r2)
          else
            match parseElements f (z :: r2) with
            | some (vs, r) => some (.arr vs, r)
            | none => none
      else if c = '"' then
        match parseStringBody rest with
        | some (s, r) => some (.str (String.mk s), r)
        | none => none
      else if c = 't' then
        match rest with
        | c1 :: c2 :: c3 :: r2 =>
          if c1 = 'r' ∧ c2 = 'u' ∧ c3 = 'e' then some (.bool true, r2) else none
        | _ => none
      else if c = 'f' then
        match rest with
        | c1 :: c2 :: c3 :: c4 :: r2 =>
          if c1 = 'a' ∧ c2 = 'l' ∧ c3 = 's' ∧ c4 = 'e' then
            some (.bool false, r2)
          else none
        | _ => none
      else if c = 'n' then
        match rest with
        | c1 :: c2 :: c3 :: r2 =>
          if c1 = 'u' ∧ c2 = 'l' ∧ c3 = 'l' then some (.null, r2) else none
        | _ => none
      else if c = '-' ∨ isDigitC c then
        match parseNumber cs with
        | some (q, r) => some (.num q.1 q.2, r)
        | none => none
      else none

/-- The members of a JSON object, starting at the first key's quote and
consuming through the closing brace. -/
def parseMembers : Nat → List Char → Option (List (String × Json) × List Char)
  | 0, _ => none
  | f + 1, cs =>
    match cs with
    | [] => none
    | c :: rest =>
      if c = '"' then
        match parseStringBody rest with
        | none => none
        | some (k, r1) =>
          match skipWs r1 with
          | [] => none
          | y :: r3 =>
            if y = ':' then
              match parseValue f (skipWs r3) with
              | none => none
              | some (v, r5) =>
                match skipWs r5 with
                | [] => none
                | z :: r7 =>
                  if z = ',' then
                    match parseMembers f (skipWs r7) with
                    | some (ms, r) => some ((String.mk k, v) :: ms, r)
                    | none => none
                  else if z = '}' then some ([(String.mk k, v)], r7)
                  else none
            else none
      else none

/-- The elements of a JSON array, starting at the first element and
consuming through the closing bracket. -/
def parseElements : Nat → List Char → Option (List Json × List Char)
  | 0, _ => none
  | f + 1, cs =>
    match parseValue f cs with
    | none => none
    | some (v, r1) =>
      match skipWs r1 with
      | [] => none
      | z :: r3 =>
        if z = ',' then
          match parseElements f (skipWs r3) with
          | some (vs, r) => some (v :: vs, r)
          | none => none
        else if z = ']' then some ([v], r3)
        else none

end

/-- Model of the JavaScript builtin `JSON.parse`: optional surrounding
JSON whitespace around a single JSON value. -/
def jsonParse (cs : List Char) : Option Json :=
  match parseValue (cs.length + 1) (skipWs cs) with
  | some (v, rest) => if skipWs rest = [] then some v else none
  | none => none

/-- One attempt to match the regular expression ```` /```json\s*|\s*```/ ````
at the current position, returning the remaining input after the match.
The first alternative is tried first, as in JavaScript alternation. -/
def matchFenceAt (cs : List Char) : Option (List Char) :=
  if cs.take 7 = ['`', '`', '`', 'j', 's', 'o', 'n'] then
    some ((cs.drop 7).dropWhile isJsWs)
  else
    match cs.dropWhile isJsWs with
    | '`' :: '`' :: '`' :: r => some r
    | _ => none

/-- Global replacement of ```` /```json\s*|\s*```/ ```` by the empty string:
scan left to right, removing each leftmost match. -/
def stripFencesAux : Nat → List Char → List Char
  | 0, cs => cs
  | f + 1, cs =>
    match cs with
    | [] => []
    | c :: rest =>
      match matchFenceAt cs with
      | some r => stripFencesAux f r
      | none => c :: stripFencesAux f rest

/-- `text.replace(/```json\s*|\s*```/g, "")` from the source. -/
def stripFences (cs : List Char) : List Char := stripFencesAux cs.length cs

/-- `text.replace(/}\s*{/g, "}, {")`: insert the missing comma between two
adjacent object literals. -/
def replaceBraceBraceAux : Nat → List Char → List Char
  | 0, cs => cs
  | f + 1, cs =>
    match cs with
    | [] => []
    | c :: rest =>
      if c = '}' then
        match rest.dropWhile isJsWs with
        | '{' :: r2 => '}' :: ',' :: ' ' :: '{' :: replaceBraceBraceAux f r2
        | _ => c :: replaceBraceBraceAux f rest
      else c :: replaceBraceBraceAux f rest

/-- `text.replace(/}\s*{/g, "}, {")` from the source. -/
def replaceBraceBrace (cs : List Char) : List Char :=
  replaceBraceBraceAux cs.length cs

/-- `text.replace(/,\s*}/g, "}")`: remove a trailing comma in an object. -/
def replaceCommaBraceAux : Nat → List Char → List Char
  | 0, cs => cs
  | f + 1, cs =>
    match cs with
    | [] => []
    | c :: rest =>
      if c = ',' then
        match rest.dropWhile isJsWs with
        | '}' :: r2 => '}' :: replaceCommaBraceAux f r2
        | _ => c :: replaceCommaBraceAux f rest
      else c :: replaceCommaBraceAux f rest

/-- `text.replace(/,\s*}/g, "}")` from the source. -/
def replaceCommaBrace (cs : List Char) : List Char :=
  replaceCommaBraceAux cs.length cs

/-- `text.replace(/,\s*]/g, "]")`: remove a trailing comma in an array. -/
def replaceCommaBracketAux : Nat → List Char → List Char
  | 0, cs => cs
  | f + 1, cs =>
    match cs with
    | [] => []
    | c :: rest =>
      if c = ',' then
        match rest.dropWhile isJsWs with
        | ']' :: r2 => ']' :: replaceCommaBracketAux f r2
        | _ => c :: replaceCommaBracketAux f rest
      else c :: replaceCommaBracketAux f rest

/-- `text.replace(/,\s*]/g, "]")` from the source. -/
def replaceCommaBracket (cs : List Char) : List Char :=
  replaceCommaBracketAux cs.length cs

/-- The three syntactic repairs of repair attempt 2, in source order. -/
def repairText (cs : List Char) : List Char :=
  replaceCommaBracket (replaceCommaBrace (replaceBraceBrace cs))

/-- JavaScript `String.prototype.lastIndexOf` for a single character. -/
def lastIndexOfChar (cs : List Char) (c : Char) : Option Nat :=
  match cs.reverse.findIdx? (· == c) with
  | some j => some (cs.length - 1 - j)
  | none => none

/-- The markdown-stripping and first-brace extraction that
`cleanAndParseJSON` applies before its first parse attempt. -/
def cleanTextOf (text : String) : List Char :=
  let cleaned := jsTrim (stripFences text.data)
  match cleaned.findIdx? (· == '{') with
  | some i => cleaned.drop i
  | none => cleaned

/-- The error message thrown when every repair strategy is exhausted. -/
def parseFailMsg : String :=
  "Failed to parse geometric data. The generation may have been interrupted or malformed."

/-- The truncation repair of attempt 3: cut at the last closing brace,
count unmatched braces and brackets in the prefix, and append the closing
brackets (first) and braces (second) needed to balance them. -/
def truncationRepair (repaired : List Char) (i : Nat) : List Char :=
  let truncatedText := repaired.take (i + 1)
  let openBraces := truncatedText.count '{'
  let closeBraces := truncatedText.count '}'
  let openBrackets := truncatedText.count '['
  let closeBrackets := truncatedText.count ']'
  truncatedText ++ (List.replicate (openBrackets - closeBrackets) ']' ++
    List.replicate (openBraces - closeBraces) '}')

/-- The JSON repair utility `cleanAndParseJSON` of the source: strip
markdown fences, trim, cut to the first `{`, then attempt a direct parse,
the syntactic repairs, and the truncation repair, in that order. -/
def cleanAndParseJSON (text : String) : Except String Json :=
  let cleanText := cleanTextOf text
  match jsonParse cleanText with
  | some v => .ok v
  | none =>
    let repairedText := repairText cleanText
    match jsonParse repairedText with
    | some v => .ok v
    | none =>
      match lastIndexOfChar repairedText '}' with
      | some i =>
        match jsonParse (truncationRepair repairedText i) with
        | some v => .ok v
        | none => .error parseFailMsg
      | none => .error parseFailMsg

/-- The four named reference image payloads (`types.ts`). -/
structure ReferenceImages where
  front : String
  back : String
  left : String
  right : String

/-- The fixed style suffix appended to every image-generation prompt. -/
def IMAGE_STYLE_PROMPT : String :=
  "high-quality 3D render, photorealistic asset, detailed textures and materials, soft studio lighting, even illumination, clean solid white background, isolated subject, single view only, no split screen, no collage, no composite image, centered full shot, neutral camera angle, entire object visible, consistent camera distance, fixed focal length"

/-- The instruction text of one image-generation request, which differs
according to whether a conditioning reference image is supplied. -/
def buildViewPrompt (prompt view : String) (referenceImage : Option String) : String :=
  match referenceImage with
  | some _ =>
    "\n    Generate the " ++ view ++ " of the EXACT SAME object shown in the provided reference image.\n    \n    CRITICAL CONSISTENCY RULES:\n    1. **Fixed Camera Distance**: You MUST use the same camera distance as the reference image. The object scale relative to the frame boundaries must be consistent.\n    2. **No Auto-Zoom**: Do not zoom in to fill the empty space. Do not zoom out.\n    3. **Alignment**: The object should be centered.\n    4. **Identity**: Colors, geometry, materials, and details must be identical.\n    5. **Background**: Pure white background.\n    6. **Single View Only**: The image MUST contain ONLY the " ++ view ++ ". Do not generate a character sheet, split screen, or multiple angles. ONE object, ONE angle.\n    \n    This is the " ++ view ++ " of the object. " ++ IMAGE_STYLE_PROMPT
  | none =>
    "\n    Generate a single " ++ view ++ " of " ++ prompt ++ ".\n    \n    CRITICAL RULES:\n    1. **Single View Only**: Generate EXACTLY ONE view. Do not create a character sheet, split screen, or show multiple angles (e.g. no side-by-side views).\n    2. **Composition**: The object must be isolated and centered on a white background.\n    \n    " ++ IMAGE_STYLE_PROMPT

/-- The environment's answer to one image-generation attempt: either the
request throws, or it returns a response whose candidate parts each carry
optional inline image data. -/
inductive AttemptOutcome where
  | threw (msg : String)
  | responded (parts : List (Option String))

/-- The first part of the response that carries inline image data. -/
def findInlineData (parts : List (Option String)) : Option String :=
  parts.findSome? id

/-- The error thrown when a response contains no image payload. -/
def noImageMsg (view : String) : String :=
  "Model returned no image data for " ++ view

/-- The outcome of a single attempt of `generateSingleView`: the first
inline image datum of the response, or the error for this attempt. -/
def attemptResult (view : String) (o : AttemptOutcome) : Except String String :=
  match o with
  | .threw m => .error m
  | .responded parts =>
    match findInlineData parts with
    | some img => .ok img
    | none => .error (noImageMsg view)

/-- The error thrown after the retry budget is exhausted.  JavaScript
renders an absent `lastError` as `undefined`. -/
def failMsg (view : String) (retries : Nat) (lastErr : Option String) : String :=
  "Failed to generate " ++ view ++ " after " ++ toString retries ++
    " attempts. Last error: " ++ lastErr.getD "undefined"

/-- One issued image-generation request. -/
structure ImgRequest where
  view : String
  referenceImage : Option String
  fullPrompt : String

/-- The observable behaviour of one `generateSingleView` call: its result,
the backoff delays taken (in milliseconds), and the requests issued (one
per attempt). -/
structure ViewCallResult where
  result : Except String String
  delays : List Nat
  requests : List ImgRequest

/-- The retry loop of `generateSingleView`: attempts are numbered from 1;
a failed attempt other than the last is followed by a
`1000 * 2 ^ (attempt - 1)` millisecond backoff delay. -/
def runAttempts (req : ImgRequest) (retries : Nat)
    (outcomes : Nat → AttemptOutcome) :
    Nat → Nat → Option String → ViewCallResult
  | 0, _, lastErr => ⟨.error (failMsg req.view retries lastErr), [], []⟩
  | rem + 1, attempt, _ =>
    match attemptResult req.view (outcomes attempt) with
    | .ok img => ⟨.ok img, [], [req]⟩
    | .error msg =>
      let r := runAttempts req retries outcomes rem (attempt + 1) (some msg)
      if attempt < retries then
        ⟨r.result, 1000 * 2 ^ (attempt - 1) :: r.delays, req :: r.requests⟩
      else
        ⟨r.result, r.delays, req :: r.requests⟩

/-- `generateSingleView` of the source, with the environment's per-attempt
answers passed as an oracle. -/
def generateSingleView (prompt view : String) (referenceImage : Option String)
    (outcomes : Nat → AttemptOutcome) (retries : Nat) : ViewCallResult :=
  runAttempts ⟨view, referenceImage, buildViewPrompt prompt view referenceImage⟩
    retries outcomes retries 1 none

/-- The view labels used by `generateReferenceImages`. -/
def viewFront : String := "Front view"

/-- The back view label. -/
def viewBack : String := "Back view"

/-- The left view label. -/
def viewLeft : String := "Left side profile view"

/-- The right view label. -/
def viewRight : String := "Right side profile view"

/-- The observable behaviour of one `generateReferenceImages` call. -/
structure RefRun where
  result : Except String ReferenceImages
  trace : List ImgRequest

/-- `generateReferenceImages` of the source: the front view is generated
first, unconditioned; then back, left and right are generated with the
front image as conditioning reference, and the results are joined.  The
three `Promise.all` branches are sequentialised back-left-right here; the
trace records the requests of every attempt in issue order (the claims
proved below do not constrain the relative order of the three conditioned
branches, which JavaScript leaves to request timing). -/
def generateReferenceImages (prompt : String)
    (outcomes : String → Nat → AttemptOutcome) : RefRun :=
  let fr := generateSingleView prompt viewFront none (outcomes viewFront) 3
  match fr.result with
  | .error e => ⟨.error e, fr.requests⟩
  | .ok front =>
    let br := generateSingleView prompt viewBack (some front) (outcomes viewBack) 3
    let lr := generateSingleView prompt viewLeft (some front) (outcomes viewLeft) 3
    let rr := generateSingleView prompt viewRight (some front) (outcomes viewRight) 3
    let trace := fr.requests ++ br.requests ++ lr.requests ++ rr.requests
    match br.result, lr.result, rr.result with
    | .ok b, .ok l, .ok r => ⟨.ok ⟨front, b, l, r⟩, trace⟩
    | .error e, _, _ => ⟨.error e, trace⟩
    | _, .error e, _ => ⟨.error e, trace⟩
    | _, _, .error e => ⟨.error e, trace⟩

/-- One progress emission of the workflow orchestrator: a stage identifier,
the log lines of the emission, and an optional scene snapshot.  The scene
payload is the raw parsed JSON value, matching the source, which casts the
parse result to `SceneConfig` without validation. -/
structure WorkflowEvent where
  stageId : Nat
  logs : List String
  sceneConfig : Option Json

/-- The stage-2 structured-generation request: conditioning images (front
and left views) and the assembled instruction text. -/
structure Stage2Request where
  frontImage : String
  leftImage : String
  userText : String

/-- The observable behaviour of one `generateSceneWorkflow` run: the events
emitted before the generator finished or threw, the terminal error if it
threw, the number of structured-generation (stage 2) requests issued, and
the stage-2 request content. -/
structure WorkflowRun where
  events : List WorkflowEvent
  error : Option String
  stage2Requests : Nat
  stage2Request : Stage2Request

/-- The fixed fallback analysis text substituted when the stage-1 request
throws. -/
def fallbackAnalysis : String :=
  "Visual analysis completed successfully. Requirement: 100k Polys, Quad-dominant Topology."

/-- `analysisResponse.text || "Analysis complete."` with the surrounding
`try`/`catch`: a thrown request is replaced by the fixed fallback string;
an absent or empty response text is replaced by `"Analysis complete."`. -/
def analysisTextOf : Except String (Option String) → String
  | .error _ => fallbackAnalysis
  | .ok none => "Analysis complete."
  | .ok (some t) => if t = "" then "Analysis complete." else t

/-- The instruction text of the stage-2 structured-generation request. -/
def buildModelPrompt (prompt analysisText : String) : String :=
  "Reconstruct the object '" ++ prompt ++ "' using a HIGH DENSITY of primitive shapes to approximate the reference images.\n    \n    PRE-PRODUCTION ANALYSIS CONTEXT: \n    " ++ analysisText ++ "\n    \n    STRICT MODELING CONSTRAINTS:\n    1. **High Fidelity Blockout**: The analysis requested 100k+ polygons. Since we are using primitives, you must simulate this by using **MANY small shapes** (Cluster/Voxel approach) instead of few large ones.\n    2. **Silhouette Accuracy**: Use multiple spheres/cylinders to capture curves. Do not use a single block for a complex torso.\n    3. **Detailing**: Add smaller shapes for eyes, handles, buttons, or textures (Greebling).\n    4. **Count**: Generate at least 30-50 individual shapes to properly define the volume.\n    5. **Colors**: Sample the dominant colors from the reference images for each part.\n    6. **Format**: VALID JSON ONLY. Ensure commas between all array items.\n    \n    Return the SceneConfig JSON with 'shapes' array.\n    "

/-- The first stage-1 event. -/
def stage1StartEvent : WorkflowEvent :=
  ⟨1, ["Initializing visual cortex...", "Loading reference images into context..."], none⟩

/-- The second stage-1 event.  Its log lines are fixed string constants,
independent of the analysis response. -/
def stage1DoneEvent : WorkflowEvent :=
  ⟨1, ["Visual decomposition complete.",
       "Analysis Result: Recommended Poly Count > 100k",
       "Analysis Result: Topology = Quad-dominant (Subdivision Ready)",
       "Material classification done."], none⟩

/-- The first stage-2 event. -/
def stage2StartEvent : WorkflowEvent :=
  ⟨2, ["Converting 100k+ poly target to Voxel Grid...",
       "Initializing high-density primitive clustering...",
       "Approximating Quad-topology with micro-structures...",
       "Sculpting primary volumes..."], none⟩

/-- The second stage-2 event, carrying the parsed scene and the rendered
`sceneData.shapes.length`. -/
def stage2DoneEvent (j : Json) (lenTxt : String) : WorkflowEvent :=
  ⟨2, ["Generated " ++ lenTxt ++ " geometric clusters (Simulated High-Poly).",
       "Topology Optimization: Voxel Approximation applied.",
       "Silhouette matched to reference."], some j⟩

/-- The first stage-3 event; it carries no scene snapshot. -/
def stage3StartEvent : WorkflowEvent :=
  ⟨3, ["Unwrapping UVs...", "Generating material maps...",
       "Applying PBR surface details..."], none⟩

/-- The second stage-3 event, passing the stage-2 scene through. -/
def stage3DoneEvent (j : Json) : WorkflowEvent :=
  ⟨3, ["Baking ambient occlusion...", "Applying roughness & metalness maps...",
       "Texture compilation complete."], some j⟩

/-- The first stage-4 event; it carries no scene snapshot. -/
def stage4StartEvent : WorkflowEvent :=
  ⟨4, ["Setting up virtual studio...", "Calculating global illumination...",
       "Finalizing render pass..."], none⟩

/-- The second stage-4 event, carrying the final scene. -/
def stage4DoneEvent (fin : Json) : WorkflowEvent :=
  ⟨4, ["Post-processing complete.", "Render finished."], some fin⟩

/-- Lookup of the first field with the given key, as JavaScript property
access on an object built by `JSON.parse`. -/
def jLookup (k : String) : List (String × Json) → Option Json
  | [] => none
  | (a, v) :: t => if a = k then some v else jLookup k t

/-- Field access on a parsed JSON object. -/
def jGet (j : Json) (k : String) : Option Json :=
  match j with
  | .obj fs => jLookup k fs
  | _ => none

/-- JavaScript object update `{ ...fs, k: v }` followed by assignment: the
value of `k` is replaced in place when present, appended otherwise. -/
def objSet (fs : List (String × Json)) (k : String) (v : Json) :
    List (String × Json) :=
  if fs.any (fun p => decide (p.1 = k)) then
    fs.map (fun p => if p.1 = k then (p.1, v) else p)
  else fs ++ [(k, v)]

/-- `{ ...sceneData }` with `ambientLightIntensity` set to `0.7` (the
canonical decimal pair `(7, 1)`). -/
def finalScene (j : Json) : Json :=
  match j with
  | .obj fs => .obj (objSet fs "ambientLightIntensity" (.num 7 1))
  | _ => .obj [("ambientLightIntensity", .num 7 1)]

/-- The rendering of `sceneData.shapes.length` in the stage-2 log line:
`none` models the `TypeError` thrown when `shapes` is absent or `null` (or
the parse result is not an object); a non-array, non-string `shapes` has an
`undefined` length in JavaScript. -/
def shapesLengthText (j : Json) : Option String :=
  match j with
  | .obj fs =>
    match jLookup "shapes" fs with
    | some (.arr l) => some (toString l.length)
    | some (.str s) => some (toString s.length)
    | some (.num _ _) => some "undefined"
    | some (.bool _) => some "undefined"
    | some (.obj _) => some "undefined"
    | some .null => none
    | none => none
  | _ => none

/-- The message of the `TypeError` raised by `sceneData.shapes.length`. -/
def shapesLengthErrorMsg : String :=
  "TypeError: Cannot read properties of undefined (reading 'length')"

/-- `generateSceneWorkflow` of the source.  The stage-1 analysis response
and the stage-2 structured-generation response text are passed as oracle
arguments; the run records the emitted events in order and the terminal
error, if the generator threw.  Stage 2 issues exactly one request on every
path that reaches it (and every run reaches it: stage-1 failures are
absorbed into the fallback analysis text). -/
def generateSceneWorkflow (prompt : String) (referenceImages : ReferenceImages)
    (analysisOutcome : Except String (Option String)) (modelText : String) :
    WorkflowRun :=
  let analysisText := analysisTextOf analysisOutcome
  let req : Stage2Request :=
    ⟨referenceImages.front, referenceImages.left, buildModelPrompt prompt analysisText⟩
  match cleanAndParseJSON modelText with
  | .error msg =>
    ⟨[stage1StartEvent, stage1DoneEvent, stage2StartEvent], some msg, 1, req⟩
  | .ok j =>
    match shapesLengthText j with
    | none =>
      ⟨[stage1StartEvent, stage1DoneEvent, stage2StartEvent],
        some shapesLengthErrorMsg, 1, req⟩
    | some lenTxt =>
      ⟨[stage1StartEvent, stage1DoneEvent, stage2StartEvent,
        stage2DoneEvent j lenTxt, stage3StartEvent, stage3DoneEvent j,
        stage4StartEvent, stage4DoneEvent (finalScene j)], none, 1, req⟩

/-- The last scene snapshot carried by the run's events, as collected by
the `for await` loop of `generateSceneFromPrompt`. -/
def lastSceneOf (events : List WorkflowEvent) : Option Json :=
  events.foldl (fun acc e =>
    match e.sceneConfig with
    | some c => some c
    | none => acc) none

/-- `generateSceneFromPrompt` of the source: the batch wrapper that drives
the workflow, keeps the last scene snapshot, propagates a workflow error,
and fails when no event carried a scene. -/
def generateSceneFromPrompt (prompt : String)
    (referenceImages : Option ReferenceImages)
    (analysisOutcome : Except String (Option String)) (modelText : String) :
    Except String Json :=
  match referenceImages with
  | none => .error "Reference images required"
  | some ri =>
    let run := generateSceneWorkflow prompt ri analysisOutcome modelText
    match run.error with
    | some e => .error e
    | none =>
      match lastSceneOf run.events with
      | some c => .ok c
      | none => .error "Failed to generate scene"

/-! ## Helper lemmas -/

theorem runAttempts_requests_eq (req : ImgRequest) (retries : Nat)
    (outcomes : Nat → AttemptOutcome) :
    ∀ rem attempt lastErr r,
      r ∈ (runAttempts req retries outcomes rem attempt lastErr).requests →
      r = req := by
  intro rem
  induction rem with
  | zero => intro attempt lastErr r hr; simp [runAttempts] at hr
  | succ n ih =>
    intro attempt lastErr r hr
    unfold runAttempts at hr
    cases h : attemptResult req.view (outcomes attempt) with
    | ok img => rw [h] at hr; simp at hr; exact hr
    | error msg =>
      rw [h] at hr
      by_cases ha : attempt < retries
      · simp [ha] at hr
        rcases hr with hr | hr
        · exact hr
        · exact ih (attempt + 1) (some msg) r hr
      · simp [ha] at hr
        rcases hr with hr | hr
        · exact hr
        · exact ih (attempt + 1) (some msg) r hr

/-! ## C3: the image client exhausts exactly its retry budget, with
doubling backoff and no delay after the final attempt -/

/-- C3.  When every attempt of a view generation fails, `generateSingleView`
makes exactly 3 attempts (issuing 3 requests), then fails with the message
that wraps the view label and the last underlying error; the backoff delays
taken between consecutive attempts are exactly 1000 ms then 2000 ms, and no
delay follows the final attempt. -/
theorem generateSingleView_exhausts_retries
    (prompt view : String) (ref : Option String)
    (outcomes : Nat → AttemptOutcome) (m1 m2 m3 : String)
    (h1 : attemptResult view (outcomes 1) = .error m1)
    (h2 : attemptResult view (outcomes 2) = .error m2)
    (h3 : attemptResult view (outcomes 3) = .error m3) :
    generateSingleView prompt view ref outcomes 3 =
      ⟨.error (failMsg view 3 (some m3)), [1000, 2000],
       List.replicate 3 ⟨view, ref, buildViewPrompt prompt view ref⟩⟩ ∧
    failMsg view 3 (some m3) =
      "Failed to generate " ++ view ++ " after 3 attempts. Last error: " ++ m3 := by
  constructor
  · unfold generateSingleView
    unfold runAttempts
    simp only [h1]
    unfold runAttempts
    simp only [h2]
    unfold runAttempts
    simp only [h3]
    unfold runAttempts
    norm_num [List.replicate]
  · unfold failMsg
    have h : (toString 3 : String) = "3" := rfl
    rw [h]
    simp [String.append_assoc]

/-- Witness for C3: a run in which every attempt returns a response with no
image payload. -/
theorem generateSingleView_exhausts_retries_witness :
    attemptResult "Front view" (AttemptOutcome.responded []) =
      .error (noImageMsg "Front view") ∧
    (generateSingleView "a red toy robot" "Front view" none
        (fun _ => .responded []) 3 =
      ⟨.error (failMsg "Front view" 3 (some (noImageMsg "Front view"))),
       [1000, 2000],
       List.replicate 3
         ⟨"Front view", none, buildViewPrompt "a red toy robot" "Front view" none⟩⟩ ∧
     failMsg "Front view" 3 (some (noImageMsg "Front view")) =
       "Failed to generate " ++ "Front view" ++
         " after 3 attempts. Last error: " ++ noImageMsg "Front view") :=
  ⟨rfl, generateSingleView_exhausts_retries _ _ _ _ _ _ _ rfl rfl rfl⟩

/-! ## C6: the front view is generated first and unconditioned; the other
three views are requested only afterwards, each conditioned on the front
image; the builder's result joins all three conditioned requests -/

/-- C6.  In every execution of `generateReferenceImages` whose front-view
call succeeds with image `f`, the issued request trace splits into the
front-view requests (all unconditioned) followed by the conditioned
requests, each of which carries `f` — and never one of the other three
images — as its conditioning reference; and the builder returns a full set
exactly when all three conditioned calls succeed, with the front field
equal to `f` and the other fields equal to the respective conditioned
results. -/
theorem generateReferenceImages_ordering
    (prompt : String) (outcomes : String → Nat → AttemptOutcome) (f : String)
    (hf : (generateSingleView prompt viewFront none (outcomes viewFront) 3).result = .ok f) :
    (∃ frontReqs condReqs,
      (generateReferenceImages prompt outcomes).trace = frontReqs ++ condReqs ∧
      (∀ r ∈ frontReqs, r.view = viewFront ∧ r.referenceImage = none) ∧
      (∀ r ∈ condReqs, r.referenceImage = some f ∧
        (r.view = viewBack ∨ r.view = viewLeft ∨ r.view = viewRight))) ∧
    (∀ imgs, (generateReferenceImages prompt outcomes).result = .ok imgs →
      imgs.front = f ∧
      (generateSingleView prompt viewBack (some f) (outcomes viewBack) 3).result = .ok imgs.back ∧
      (generateSingleView prompt viewLeft (some f) (outcomes viewLeft) 3).result = .ok imgs.left ∧
      (generateSingleView prompt viewRight (some f) (outcomes viewRight) 3).result = .ok imgs.right) := by
  have hmemF : ∀ r ∈ (generateSingleView prompt viewFront none (outcomes viewFront) 3).requests,
      r = (⟨viewFront, none, buildViewPrompt prompt viewFront none⟩ : ImgRequest) := by
    intro r hr
    exact runAttempts_requests_eq _ _ _ _ _ _ r hr
  have hmemB : ∀ r ∈ (generateSingleView prompt viewBack (some f) (outcomes viewBack) 3).requests,
      r = (⟨viewBack, some f, buildViewPrompt prompt viewBack (some f)⟩ : ImgRequest) := by
    intro r hr
    exact runAttempts_requests_eq _ _ _ _ _ _ r hr
  have hmemL : ∀ r ∈ (generateSingleView prompt viewLeft (some f) (outcomes viewLeft) 3).requests,
      r = (⟨viewLeft, some f, buildViewPrompt prompt viewLeft (some f)⟩ : ImgRequest) := by
    intro r hr
    exact runAttempts_requests_eq _ _ _ _ _ _ r hr
  have hmemR : ∀ r ∈ (generateSingleView prompt viewRight (some f) (outcomes viewRight) 3).requests,
      r = (⟨viewRight, some f, buildViewPrompt prompt viewRight (some f)⟩ : ImgRequest) := by
    intro r hr
    exact runAttempts_requests_eq _ _ _ _ _ _ r hr
  unfold generateReferenceImages
  dsimp only
  rw [hf]
  dsimp only
  constructor
  · refine ⟨(generateSingleView prompt viewFront none (outcomes viewFront) 3).requests,
      (generateSingleView prompt viewBack (some f) (outcomes viewBack) 3).requests ++
      (generateSingleView prompt viewLeft (some f) (outcomes viewLeft) 3).requests ++
      (generateSingleView prompt viewRight (some f) (outcomes viewRight) 3).requests, ?_, ?_, ?_⟩
    · cases hb : (generateSingleView prompt viewBack (some f) (outcomes viewBack) 3).result with
      | ok b =>
        cases hl : (generateSingleView prompt viewLeft (some f) (outcomes viewLeft) 3).result with
        | ok l =>
          cases hr : (generateSingleView prompt viewRight (some f) (outcomes viewRight) 3).result with
          | ok r => simp [hb, hl, hr, List.append_assoc]
          | error e => simp [hb, hl, hr, List.append_assoc]
        | error e =>
          cases hr : (generateSingleView prompt viewRight (some f) (outcomes viewRight) 3).result with
          | ok r => simp [hb, hl, hr, List.append_assoc]
          | error e2 => simp [hb, hl, hr, List.append_assoc]
      | error e =>
        cases hl : (generateSingleView prompt viewLeft (some f) (outcomes viewLeft) 3).result with
        | ok l =>
          cases hr : (generateSingleView prompt viewRight (some f) (outcomes viewRight) 3).result with
          | ok r => simp [hb, hl, hr, List.append_assoc]
          | error e2 => simp [hb, hl, hr, List.append_assoc]
        | error e2 =>
          cases hr : (generateSingleView prompt viewRight (some f) (outcomes viewRight) 3).result with
          | ok r => simp [hb, hl, hr, List.append_assoc]
          | error e3 => simp [hb, hl, hr, List.append_assoc]
    · intro r hr
      rw [hmemF r hr]
      exact ⟨rfl, rfl⟩
    · intro r hr
      rcases List.mem_append.mp hr with hr' | hr'
      · rcases List.mem_append.mp hr' with hr'' | hr''
        · rw [hmemB r hr'']; exact ⟨rfl, Or.inl rfl⟩
        · rw [hmemL r hr'']; exact ⟨rfl, Or.inr (Or.inl rfl)⟩
      · rw [hmemR r hr']; exact ⟨rfl, Or.inr (Or.inr rfl)⟩
  · intro imgs himgs
    cases hb : (generateSingleView prompt viewBack (some f) (outcomes viewBack) 3).result with
    | ok b =>
      cases hl : (generateSingleView prompt viewLeft (some f) (outcomes viewLeft) 3).result with
      | ok l =>
        cases hr : (generateSingleView prompt viewRight (some f) (outcomes viewRight) 3).result with
        | ok r =>
          rw [hb, hl, hr] at himgs
          simp at himgs
          subst himgs
          exact ⟨rfl, rfl, rfl, rfl⟩
        | error e => rw [hb, hl, hr] at himgs; simp at himgs
      | error e =>
        cases hr : (generateSingleView prompt viewRight (some f) (outcomes viewRight) 3).result with
        | ok r => rw [hb, hl, hr] at himgs; simp at himgs
        | error e2 => rw [hb, hl, hr] at himgs; simp at himgs
    | error e =>
      cases hl : (generateSingleView prompt viewLeft (some f) (outcomes viewLeft) 3).result with
      | ok l =>
        cases hr : (generateSingleView prompt viewRight (some f) (outcomes viewRight) 3).result with
        | ok r => rw [hb, hl, hr] at himgs; simp at himgs
        | error e2 => rw [hb, hl, hr] at himgs; simp at himgs
      | error e2 =>
        cases hr : (generateSingleView prompt viewRight (some f) (outcomes viewRight) 3).result with
        | ok r => rw [hb, hl, hr] at himgs; simp at himgs
        | error e3 => rw [hb, hl, hr] at himgs; simp at himgs

/-- Witness for C6: a run in which every attempt immediately returns an
image. -/
theorem generateReferenceImages_ordering_witness :
    (generateSingleView "a cat" viewFront none
        (fun _ => AttemptOutcome.responded [some "IMG"]) 3).result = .ok "IMG" ∧
    ((∃ frontReqs condReqs,
      (generateReferenceImages "a cat"
          (fun _ _ => AttemptOutcome.responded [some "IMG"])).trace =
        frontReqs ++ condReqs ∧
      (∀ r ∈ frontReqs, r.view = viewFront ∧ r.referenceImage = none) ∧
      (∀ r ∈ condReqs, r.referenceImage = some "IMG" ∧
        (r.view = viewBack ∨ r.view = viewLeft ∨ r.view = viewRight))) ∧
    (∀ imgs, (generateReferenceImages "a cat"
          (fun _ _ => AttemptOutcome.responded [some "IMG"])).result = .ok imgs →
      imgs.front = "IMG" ∧
      (generateSingleView "a cat" viewBack (some "IMG")
          (fun _ => AttemptOutcome.responded [some "IMG"]) 3).result = .ok imgs.back ∧
      (generateSingleView "a cat" viewLeft (some "IMG")
          (fun _ => AttemptOutcome.responded [some "IMG"]) 3).result = .ok imgs.left ∧
      (generateSingleView "a cat" viewRight (some "IMG")
          (fun _ => AttemptOutcome.responded [some "IMG"]) 3).result = .ok imgs.right)) :=
  ⟨rfl, generateReferenceImages_ordering "a cat"
    (fun _ _ => AttemptOutcome.responded [some "IMG"]) "IMG" rfl⟩

/-! ## C2: an unrepairable stage-2 response fails the whole workflow,
emits no stage-2 scene event, and issues the stage-2 request exactly once -/

/-- C2.  When the stage-2 response text exhausts every strategy of the
repair ladder, the workflow terminates with that error after emitting
exactly the three pre-parse events (two for stage 1, one for stage 2),
none of which carries a scene; and exactly one stage-2 request was
issued. -/
theorem workflow_stage2_unrepairable
    (prompt : String) (imgs : ReferenceImages)
    (analysisOutcome : Except String (Option String)) (modelText msg : String)
    (hparse : cleanAndParseJSON modelText = .error msg) :
    (generateSceneWorkflow prompt imgs analysisOutcome modelText).events =
      [stage1StartEvent, stage1DoneEvent, stage2StartEvent] ∧
    (generateSceneWorkflow prompt imgs analysisOutcome modelText).error = some msg ∧
    (generateSceneWorkflow prompt imgs analysisOutcome modelText).stage2Requests = 1 ∧
    (∀ e ∈ (generateSceneWorkflow prompt imgs analysisOutcome modelText).events,
      e.sceneConfig = none) := by
  unfold generateSceneWorkflow
  rw [hparse]
  refine ⟨rfl, rfl, rfl, ?_⟩
  intro e he
  simp [stage1StartEvent, stage1DoneEvent, stage2StartEvent] at he
  rcases he with h | h | h <;> rw [h]

/-- Witness for C2: a response text on which every repair strategy fails. -/
theorem workflow_stage2_unrepairable_witness :
    cleanAndParseJSON "no json here" = .error parseFailMsg ∧
    ((generateSceneWorkflow "a cat" ⟨"F", "B", "L", "R"⟩
        (.ok (some "analysis")) "no json here").events =
      [stage1StartEvent, stage1DoneEvent, stage2StartEvent] ∧
    (generateSceneWorkflow "a cat" ⟨"F", "B", "L", "R"⟩
        (.ok (some "analysis")) "no json here").error = some parseFailMsg ∧
    (generateSceneWorkflow "a cat" ⟨"F", "B", "L", "R"⟩
        (.ok (some "analysis")) "no json here").stage2Requests = 1 ∧
    (∀ e ∈ (generateSceneWorkflow "a cat" ⟨"F", "B", "L", "R"⟩
        (.ok (some "analysis")) "no json here").events,
      e.sceneConfig = none)) :=
  ⟨rfl, workflow_stage2_unrepairable "a cat" ⟨"F", "B", "L", "R"⟩
    (.ok (some "analysis")) "no json here" parseFailMsg rfl⟩

/-! ## C7: the final scene equals the stage-2 scene with only the ambient
light intensity overridden to 0.7 -/

theorem jLookup_cons_eq (a : String) (v : Json) (t : List (String × Json)) :
    jLookup a ((a, v) :: t) = some v := by
  show (if a = a then some v else jLookup a t) = some v
  rw [if_pos rfl]

theorem jLookup_cons_ne (a k : String) (v : Json) (t : List (String × Json))
    (h : ¬ a = k) : jLookup k ((a, v) :: t) = jLookup k t := by
  show (if a = k then some v else jLookup k t) = jLookup k t
  rw [if_neg h]

theorem jLookup_mapReplace_self (k : String) (v : Json) :
    ∀ fs : List (String × Json), fs.any (fun p => decide (p.1 = k)) = true →
      jLookup k (fs.map (fun p => if p.1 = k then (p.1, v) else p)) = some v := by
  intro fs
  induction fs with
  | nil => intro h; simp at h
  | cons p t ih =>
    obtain ⟨a, w⟩ := p
    intro h
    rw [List.map_cons]
    by_cases hp : a = k
    · subst hp
      have hrepl : (if (a, w).1 = a then ((a, w).1, v) else (a, w)) = (a, v) :=
        if_pos rfl
      rw [hrepl, jLookup_cons_eq]
    · have hrepl : (if (a, w).1 = k then ((a, w).1, v) else (a, w)) = (a, w) :=
        if_neg hp
      rw [hrepl, jLookup_cons_ne a k w _ hp]
      simp only [List.any_cons] at h
      simp [hp] at h
      exact ih (by simpa using h)

theorem jLookup_mapReplace_ne (k k' : String) (v : Json) (hne : k' ≠ k) :
    ∀ fs : List (String × Json),
      jLookup k' (fs.map (fun p => if p.1 = k then (p.1, v) else p)) =
        jLookup k' fs := by
  intro fs
  induction fs with
  | nil => simp
  | cons p t ih =>
    obtain ⟨a, w⟩ := p
    rw [List.map_cons]
    by_cases hp : a = k
    · subst hp
      have hrepl : (if (a, w).1 = a then ((a, w).1, v) else (a, w)) = (a, v) :=
        if_pos rfl
      have ha : ¬ a = k' := fun hc => hne hc.symm
      rw [hrepl, jLookup_cons_ne a k' v _ ha, jLookup_cons_ne a k' w _ ha]
      exact ih
    · have hrepl : (if (a, w).1 = k then ((a, w).1, v) else (a, w)) = (a, w) :=
        if_neg hp
      rw [hrepl]
      by_cases hk : a = k'
      · subst hk
        rw [jLookup_cons_eq, jLookup_cons_eq]
      · rw [jLookup_cons_ne a k' w _ hk, jLookup_cons_ne a k' w _ hk]
        exact ih

theorem jLookup_append_single_self (k : String) (v : Json) :
    ∀ fs : List (String × Json), fs.any (fun p => decide (p.1 = k)) = false →
      jLookup k (fs ++ [(k, v)]) = some v := by
  intro fs
  induction fs with
  | nil => intro _; rw [List.nil_append, jLookup_cons_eq]
  | cons p t ih =>
    obtain ⟨a, w⟩ := p
    intro h
    simp only [List.any_cons, Bool.or_eq_false_iff] at h
    have ha : ¬ a = k := by
      intro hc
      rw [hc] at h
      simp at h
    rw [List.cons_append, jLookup_cons_ne a k w _ ha]
    exact ih h.2

theorem jLookup_append_single_ne (k k' : String) (v : Json) (hne : k' ≠ k) :
    ∀ fs : List (String × Json), jLookup k' (fs ++ [(k, v)]) = jLookup k' fs := by
  intro fs
  induction fs with
  | nil =>
    have hk : ¬ k = k' := fun hc => hne hc.symm
    rw [List.nil_append, jLookup_cons_ne k k' v _ hk]
  | cons p t ih =>
    obtain ⟨a, w⟩ := p
    by_cases hk : a = k'
    · subst hk
      rw [List.cons_append, jLookup_cons_eq, jLookup_cons_eq]
    · rw [List.cons_append, jLookup_cons_ne a k' w _ hk,
        jLookup_cons_ne a k' w _ hk]
      exact ih

theorem objSet_lookup_self (fs : List (String × Json)) (k : String) (v : Json) :
    jLookup k (objSet fs k v) = some v := by
  unfold objSet
  cases h : fs.any (fun p => decide (p.1 = k)) with
  | true =>
    rw [if_pos rfl]
    exact jLookup_mapReplace_self k v fs h
  | false =>
    simp only [Bool.false_eq_true, if_false]
    exact jLookup_append_single_self k v fs h

theorem objSet_lookup_ne (fs : List (String × Json)) (k k' : String) (v : Json)
    (hne : k' ≠ k) : jLookup k' (objSet fs k v) = jLookup k' fs := by
  unfold objSet
  cases h : fs.any (fun p => decide (p.1 = k)) with
  | true =>
    rw [if_pos rfl]
    exact jLookup_mapReplace_ne k k' v hne fs
  | false =>
    simp only [Bool.false_eq_true, if_false]
    exact jLookup_append_single_ne k k' v hne fs

/-- C7.  In every successful run, the scene carried by the final (second
stage-4) event is the stage-2 scene with `ambientLightIntensity` set to the
fixed value `0.7` and every other field — in particular `backgroundColor`,
`ambientLightColor` and the whole `shapes` list — unchanged. -/
theorem final_scene_overrides_ambient_only
    (prompt : String) (imgs : ReferenceImages)
    (ao : Except String (Option String)) (modelText : String)
    (fs : List (String × Json)) (lenTxt : String)
    (hparse : cleanAndParseJSON modelText = .ok (Json.obj fs))
    (hlen : shapesLengthText (Json.obj fs) = some lenTxt) :
    (generateSceneWorkflow prompt imgs ao modelText).events.getLast? =
      some (stage4DoneEvent (finalScene (Json.obj fs))) ∧
    finalScene (Json.obj fs) =
      Json.obj (objSet fs "ambientLightIntensity" (.num 7 1)) ∧
    jGet (finalScene (Json.obj fs)) "ambientLightIntensity" =
      some (.num 7 1) ∧
    (∀ k, k ≠ "ambientLightIntensity" →
      jGet (finalScene (Json.obj fs)) k = jGet (Json.obj fs) k) := by
  refine ⟨?_, rfl, ?_, ?_⟩
  · unfold generateSceneWorkflow
    dsimp only
    rw [hparse]
    dsimp only
    rw [hlen]
    rfl
  · show jLookup "ambientLightIntensity"
      (objSet fs "ambientLightIntensity" (.num 7 1)) = some (.num 7 1)
    exact objSet_lookup_self fs _ _
  · intro k hk
    show jLookup k (objSet fs "ambientLightIntensity" (.num 7 1)) = jLookup k fs
    exact objSet_lookup_ne fs _ k _ hk

/-- Witness for C7: a successful run on a small concrete scene. -/
theorem final_scene_overrides_ambient_only_witness :
    cleanAndParseJSON "\x7b\"backgroundColor\":\"#112233\",\"shapes\":[]\x7d" =
      .ok (Json.obj [("backgroundColor", Json.str "#112233"),
                     ("shapes", Json.arr [])]) ∧
    shapesLengthText (Json.obj [("backgroundColor", Json.str "#112233"),
                     ("shapes", Json.arr [])]) = some "0" ∧
    ((generateSceneWorkflow "a cat" ⟨"F", "B", "L", "R"⟩ (.ok (some "analysis"))
        "\x7b\"backgroundColor\":\"#112233\",\"shapes\":[]\x7d").events.getLast? =
      some (stage4DoneEvent (finalScene (Json.obj
        [("backgroundColor", Json.str "#112233"), ("shapes", Json.arr [])]))) ∧
    finalScene (Json.obj [("backgroundColor", Json.str "#112233"),
        ("shapes", Json.arr [])]) =
      Json.obj (objSet [("backgroundColor", Json.str "#112233"),
        ("shapes", Json.arr [])] "ambientLightIntensity" (.num 7 1)) ∧
    jGet (finalScene (Json.obj [("backgroundColor", Json.str "#112233"),
        ("shapes", Json.arr [])])) "ambientLightIntensity" = some (.num 7 1) ∧
    (∀ k, k ≠ "ambientLightIntensity" →
      jGet (finalScene (Json.obj [("backgroundColor", Json.str "#112233"),
        ("shapes", Json.arr [])])) k =
      jGet (Json.obj [("backgroundColor", Json.str "#112233"),
        ("shapes", Json.arr [])]) k)) :=
  ⟨rfl, rfl, final_scene_overrides_ambient_only "a cat" ⟨"F", "B", "L", "R"⟩
    (.ok (some "analysis")) _ _ "0" rfl rfl⟩

/-! ## C8: a stage-1 analysis failure is absorbed into the fixed fallback
text and the workflow proceeds to stage 2 -/

/-- C8.  A run whose stage-1 analysis request throws behaves exactly like a
run whose analysis request succeeded with the fixed fallback text: no error
reaches the caller from stage 1, the first three events (through the start
of stage 2) are emitted unchanged, and the stage-2 request is assembled
with the fallback string as its analysis context. -/
theorem analysis_failure_absorbed
    (prompt : String) (imgs : ReferenceImages) (e modelText : String) :
    generateSceneWorkflow prompt imgs (.error e) modelText =
      generateSceneWorkflow prompt imgs (.ok (some fallbackAnalysis)) modelText ∧
    (generateSceneWorkflow prompt imgs (.error e) modelText).stage2Request.userText =
      buildModelPrompt prompt fallbackAnalysis ∧
    (generateSceneWorkflow prompt imgs (.error e) modelText).events.take 3 =
      [stage1StartEvent, stage1DoneEvent, stage2StartEvent] := by
  have hfb : analysisTextOf (.ok (some fallbackAnalysis)) = fallbackAnalysis := by
    show (if fallbackAnalysis = "" then "Analysis complete." else fallbackAnalysis) =
      fallbackAnalysis
    rw [if_neg (by decide)]
  have hmain : generateSceneWorkflow prompt imgs (.error e) modelText =
      generateSceneWorkflow prompt imgs (.ok (some fallbackAnalysis)) modelText := by
    unfold generateSceneWorkflow
    rw [show analysisTextOf (.error e) = fallbackAnalysis from rfl, hfb]
  have hreq : (generateSceneWorkflow prompt imgs (.error e) modelText).stage2Request.userText =
      buildModelPrompt prompt fallbackAnalysis := by
    unfold generateSceneWorkflow
    dsimp only
    cases hp : cleanAndParseJSON modelText with
    | error m => rfl
    | ok j =>
      dsimp only
      cases hl : shapesLengthText j with
      | none => rfl
      | some t => rfl
  have htake : (generateSceneWorkflow prompt imgs (.error e) modelText).events.take 3 =
      [stage1StartEvent, stage1DoneEvent, stage2StartEvent] := by
    unfold generateSceneWorkflow
    dsimp only
    cases hp : cleanAndParseJSON modelText with
    | error m => rfl
    | ok j =>
      dsimp only
      cases hl : shapesLengthText j with
      | none => rfl
      | some t => rfl
  exact ⟨hmain, hreq, htake⟩

/-! ## C9: the second stage-1 event carries fixed log lines, not the
analysis result -/

/-- C9 (divergence witness).  The second emitted event is the constant
`stage1DoneEvent` for every analysis outcome: its four log lines are fixed
strings, independent of the analysis response text, contradicting the
specified behaviour of carrying the stage-1 analysis result. -/
theorem stage1_second_event_logs_fixed
    (prompt : String) (imgs : ReferenceImages)
    (ao : Except String (Option String)) (modelText : String) :
    (generateSceneWorkflow prompt imgs ao modelText).events[1]? =
      some stage1DoneEvent ∧
    stage1DoneEvent.logs =
      ["Visual decomposition complete.",
       "Analysis Result: Recommended Poly Count > 100k",
       "Analysis Result: Topology = Quad-dominant (Subdivision Ready)",
       "Material classification done."] := by
  constructor
  · unfold generateSceneWorkflow
    dsimp only
    cases hp : cleanAndParseJSON modelText with
    | error m => rfl
    | ok j =>
      dsimp only
      cases hl : shapesLengthText j with
      | none => rfl
      | some t => rfl
  · rfl

/-! ## C1: the event sequence of a successful run -/

/-- C1 (amended).  When the stage-2 response parses (after repair) to an
object whose `shapes` field supports the length access, the workflow emits
exactly 8 events in order: 2 with stage 1, then 2 with stage 2 (the second
carrying the parsed scene), then 2 with stage 3 (the first carrying no
scene, the second carrying the same scene as stage 2), then 2 with stage 4
(the first carrying no scene, the second carrying the stage-2 scene with
`ambientLightIntensity` set to 0.7 — which differs from stage 2/3's value
whenever that value is not itself 0.7 — and the `shapes` field
unchanged). -/
theorem workflow_event_sequence
    (prompt : String) (imgs : ReferenceImages)
    (ao : Except String (Option String)) (modelText lenTxt : String)
    (fs : List (String × Json))
    (hparse : cleanAndParseJSON modelText = .ok (Json.obj fs))
    (hlen : shapesLengthText (Json.obj fs) = some lenTxt) :
    (generateSceneWorkflow prompt imgs ao modelText).events =
      [stage1StartEvent, stage1DoneEvent, stage2StartEvent,
       stage2DoneEvent (Json.obj fs) lenTxt, stage3StartEvent,
       stage3DoneEvent (Json.obj fs), stage4StartEvent,
       stage4DoneEvent (finalScene (Json.obj fs))] ∧
    (generateSceneWorkflow prompt imgs ao modelText).events.map (fun e => e.stageId) =
      [1, 1, 2, 2, 3, 3, 4, 4] ∧
    (generateSceneWorkflow prompt imgs ao modelText).events.map (fun e => e.sceneConfig) =
      [none, none, none, some (Json.obj fs), none, some (Json.obj fs), none,
       some (finalScene (Json.obj fs))] ∧
    (generateSceneWorkflow prompt imgs ao modelText).error = none ∧
    jGet (finalScene (Json.obj fs)) "ambientLightIntensity" = some (.num 7 1) ∧
    jGet (finalScene (Json.obj fs)) "shapes" = jGet (Json.obj fs) "shapes" := by
  have hrun : generateSceneWorkflow prompt imgs ao modelText =
      ⟨[stage1StartEvent, stage1DoneEvent, stage2StartEvent,
        stage2DoneEvent (Json.obj fs) lenTxt, stage3StartEvent,
        stage3DoneEvent (Json.obj fs), stage4StartEvent,
        stage4DoneEvent (finalScene (Json.obj fs))], none, 1,
       ⟨imgs.front, imgs.left, buildModelPrompt prompt (analysisTextOf ao)⟩⟩ := by
    unfold generateSceneWorkflow
    dsimp only
    rw [hparse]
    dsimp only
    rw [hlen]
  refine ⟨by rw [hrun], by rw [hrun]; rfl, by rw [hrun]; rfl, by rw [hrun], ?_, ?_⟩
  · show jLookup "ambientLightIntensity"
      (objSet fs "ambientLightIntensity" (.num 7 1)) = some (.num 7 1)
    exact objSet_lookup_self fs _ _
  · show jLookup "shapes" (objSet fs "ambientLightIntensity" (.num 7 1)) =
      jLookup "shapes" fs
    exact objSet_lookup_ne fs _ "shapes" _ (by decide)

/-- Counterexample to C1 as stated: a successful run (on a scene whose
`ambientLightIntensity` is already 0.7) in which the first stage-3 event
carries no SceneDescription — the claim said both stage-3 events carry
one — and in which the final event's ambient light intensity does not
differ from stage 2/3's. -/
theorem workflow_event_sequence_counterexample :
    cleanAndParseJSON "\x7b\"ambientLightIntensity\":0.7,\"shapes\":[]\x7d" =
      .ok (Json.obj [("ambientLightIntensity", Json.num 7 1),
                     ("shapes", Json.arr [])]) ∧
    (generateSceneWorkflow "a cat" ⟨"F", "B", "L", "R"⟩ (.ok (some "analysis"))
        "\x7b\"ambientLightIntensity\":0.7,\"shapes\":[]\x7d").error = none ∧
    (generateSceneWorkflow "a cat" ⟨"F", "B", "L", "R"⟩ (.ok (some "analysis"))
        "\x7b\"ambientLightIntensity\":0.7,\"shapes\":[]\x7d").events.length = 8 ∧
    (generateSceneWorkflow "a cat" ⟨"F", "B", "L", "R"⟩ (.ok (some "analysis"))
        "\x7b\"ambientLightIntensity\":0.7,\"shapes\":[]\x7d").events[4]? =
      some stage3StartEvent ∧
    stage3StartEvent.sceneConfig = none ∧
    ((generateSceneWorkflow "a cat" ⟨"F", "B", "L", "R"⟩ (.ok (some "analysis"))
        "\x7b\"ambientLightIntensity\":0.7,\"shapes\":[]\x7d").events[7]?.bind
        (fun e => e.sceneConfig)).bind (fun c => jGet c "ambientLightIntensity") =
    ((generateSceneWorkflow "a cat" ⟨"F", "B", "L", "R"⟩ (.ok (some "analysis"))
        "\x7b\"ambientLightIntensity\":0.7,\"shapes\":[]\x7d").events[3]?.bind
        (fun e => e.sceneConfig)).bind (fun c => jGet c "ambientLightIntensity") :=
  ⟨rfl, rfl, rfl, rfl, rfl, rfl⟩

/-- Witness for C1: a successful run on a concrete scene payload. -/
theorem workflow_event_sequence_witness :
    cleanAndParseJSON "\x7b\"backgroundColor\":\"#000\",\"shapes\":[]\x7d" =
      .ok (Json.obj [("backgroundColor", Json.str "#000"),
                     ("shapes", Json.arr [])]) ∧
    shapesLengthText (Json.obj [("backgroundColor", Json.str "#000"),
        ("shapes", Json.arr [])]) = some "0" ∧
    ((generateSceneWorkflow "a dog" ⟨"F", "B", "L", "R"⟩ (.ok (some "analysis"))
        "\x7b\"backgroundColor\":\"#000\",\"shapes\":[]\x7d").events.map
        (fun e => e.stageId) = [1, 1, 2, 2, 3, 3, 4, 4]) ∧
    ((generateSceneWorkflow "a dog" ⟨"F", "B", "L", "R"⟩ (.ok (some "analysis"))
        "\x7b\"backgroundColor\":\"#000\",\"shapes\":[]\x7d").error = none) :=
  ⟨rfl, rfl,
   (workflow_event_sequence "a dog" ⟨"F", "B", "L", "R"⟩ (.ok (some "analysis"))
     "\x7b\"backgroundColor\":\"#000\",\"shapes\":[]\x7d" "0"
     [("backgroundColor", Json.str "#000"), ("shapes", Json.arr [])]
     rfl rfl).2.1,
   (workflow_event_sequence "a dog" ⟨"F", "B", "L", "R"⟩ (.ok (some "analysis"))
     "\x7b\"backgroundColor\":\"#000\",\"shapes\":[]\x7d" "0"
     [("backgroundColor", Json.str "#000"), ("shapes", Json.arr [])]
     rfl rfl).2.2.2.1⟩

/-! ## C10: the batch wrapper agrees with the streaming workflow -/

theorem lastSceneOf_none (events : List WorkflowEvent)
    (h : ∀ e ∈ events, e.sceneConfig = none) : lastSceneOf events = none := by
  induction events with
  | nil => rfl
  | cons e t ih =>
    have he : e.sceneConfig = none := h e (List.mem_cons_self e t)
    show List.foldl _ (match e.sceneConfig with
      | some c => some c
      | none => none) t = none
    rw [he]
    exact ih fun x hx => h x (List.mem_cons_of_mem e hx)

/-- C10.  The batch operation agrees with the streaming workflow: on a
successful run it returns exactly the scene carried by the last
scene-carrying event — the final stage-4 configuration with
`ambientLightIntensity` 0.7 — and when the workflow emits no event carrying
a scene, it fails with an error. -/
theorem generateSceneFromPrompt_refines_workflow
    (prompt : String) (ri : ReferenceImages)
    (ao : Except String (Option String)) (modelText lenTxt : String)
    (fs : List (String × Json)) :
    (cleanAndParseJSON modelText = .ok (Json.obj fs) →
     shapesLengthText (Json.obj fs) = some lenTxt →
      generateSceneFromPrompt prompt (some ri) ao modelText =
        .ok (finalScene (Json.obj fs)) ∧
      lastSceneOf (generateSceneWorkflow prompt ri ao modelText).events =
        some (finalScene (Json.obj fs))) ∧
    ((∀ e ∈ (generateSceneWorkflow prompt ri ao modelText).events,
        e.sceneConfig = none) →
      ∃ msg, generateSceneFromPrompt prompt (some ri) ao modelText =
        .error msg) := by
  constructor
  · intro hparse hlen
    have hrun : generateSceneWorkflow prompt ri ao modelText =
        ⟨[stage1StartEvent, stage1DoneEvent, stage2StartEvent,
          stage2DoneEvent (Json.obj fs) lenTxt, stage3StartEvent,
          stage3DoneEvent (Json.obj fs), stage4StartEvent,
          stage4DoneEvent (finalScene (Json.obj fs))], none, 1,
         ⟨ri.front, ri.left, buildModelPrompt prompt (analysisTextOf ao)⟩⟩ := by
      unfold generateSceneWorkflow
      dsimp only
      rw [hparse]
      dsimp only
      rw [hlen]
    constructor
    · unfold generateSceneFromPrompt
      dsimp only
      rw [hrun]
      rfl
    · rw [hrun]
      rfl
  · intro hnone
    cases herr : (generateSceneWorkflow prompt ri ao modelText).error with
    | some msg =>
      refine ⟨msg, ?_⟩
      unfold generateSceneFromPrompt
      dsimp only
      rw [herr]
    | none =>
      refine ⟨"Failed to generate scene", ?_⟩
      unfold generateSceneFromPrompt
      dsimp only
      rw [herr, lastSceneOf_none _ hnone]

/-- Witness for C10: the success branch at a concrete parsable payload, and
the failure branch at a concrete unparsable payload. -/
theorem generateSceneFromPrompt_refines_workflow_witness :
    cleanAndParseJSON "\x7b\"shapes\":[]\x7d" =
      .ok (Json.obj [("shapes", Json.arr [])]) ∧
    shapesLengthText (Json.obj [("shapes", Json.arr [])]) = some "0" ∧
    (generateSceneFromPrompt "a boat" (some ⟨"F", "B", "L", "R"⟩)
        (.ok (some "analysis")) "\x7b\"shapes\":[]\x7d" =
      .ok (finalScene (Json.obj [("shapes", Json.arr [])]))) ∧
    (∀ e ∈ (generateSceneWorkflow "a boat" ⟨"F", "B", "L", "R"⟩
        (.ok (some "analysis")) "garbage").events, e.sceneConfig = none) ∧
    (∃ msg, generateSceneFromPrompt "a boat" (some ⟨"F", "B", "L", "R"⟩)
        (.ok (some "analysis")) "garbage" = .error msg) := by
  have hall : ∀ e ∈ (generateSceneWorkflow "a boat" ⟨"F", "B", "L", "R"⟩
      (.ok (some "analysis")) "garbage").events, e.sceneConfig = none := by
    intro e he
    have hev : (generateSceneWorkflow "a boat" ⟨"F", "B", "L", "R"⟩
        (.ok (some "analysis")) "garbage").events =
        [stage1StartEvent, stage1DoneEvent, stage2StartEvent] := rfl
    rw [hev] at he
    simp [stage1StartEvent, stage1DoneEvent, stage2StartEvent] at he
    rcases he with h | h | h <;> rw [h]
  refine ⟨rfl, rfl, ?_, hall, ?_⟩
  · exact ((generateSceneFromPrompt_refines_workflow "a boat" ⟨"F", "B", "L", "R"⟩
      (.ok (some "analysis")) "\x7b\"shapes\":[]\x7d" "0"
      [("shapes", Json.arr [])]).1 rfl rfl).1
  · exact (generateSceneFromPrompt_refines_workflow "a boat" ⟨"F", "B", "L", "R"⟩
      (.ok (some "analysis")) "garbage" "0" []).2 hall

/-! ## C4: the truncation repair -/

/-- C4.  When the direct parse of the cleaned text fails and the parse of
the syntactically repaired text also fails but that text contains a `}`,
the repair function truncates the text after its last `}`, counts unmatched
`{`/`}` and `[`/`]` in the truncated prefix, appends exactly that many
closing brackets followed by that many closing braces (all `]` before all
`}`), and returns the parse of the result (or the terminal error if even
that parse fails). -/
theorem cleanAndParseJSON_truncation_path
    (text : String) (i : Nat)
    (h1 : jsonParse (cleanTextOf text) = none)
    (h2 : jsonParse (repairText (cleanTextOf text)) = none)
    (h3 : lastIndexOfChar (repairText (cleanTextOf text)) '}' = some i) :
    cleanAndParseJSON text =
      (match jsonParse (truncationRepair (repairText (cleanTextOf text)) i) with
       | some v => .ok v
       | none => .error parseFailMsg) ∧
    truncationRepair (repairText (cleanTextOf text)) i =
      (repairText (cleanTextOf text)).take (i + 1) ++
        (List.replicate
          (((repairText (cleanTextOf text)).take (i + 1)).count '[' -
           ((repairText (cleanTextOf text)).take (i + 1)).count ']') ']' ++
         List.replicate
          (((repairText (cleanTextOf text)).take (i + 1)).count '{' -
           ((repairText (cleanTextOf text)).take (i + 1)).count '}') '}') := by
  constructor
  · unfold cleanAndParseJSON
    dsimp only
    rw [h1]
    dsimp only
    rw [h2]
    dsimp only
    rw [h3]
  · rfl

/-- Witness for C4: the truncated payload from the specification closes to
the object parsed from the balanced text. -/
theorem cleanAndParseJSON_truncation_path_witness :
    jsonParse (cleanTextOf "\x7b\"shapes\":[\x7b\"id\":\"x\"\x7d") = none ∧
    jsonParse (repairText (cleanTextOf "\x7b\"shapes\":[\x7b\"id\":\"x\"\x7d")) = none ∧
    lastIndexOfChar (repairText (cleanTextOf "\x7b\"shapes\":[\x7b\"id\":\"x\"\x7d")) '}' =
      some 20 ∧
    cleanAndParseJSON "\x7b\"shapes\":[\x7b\"id\":\"x\"\x7d" =
      .ok (Json.obj [("shapes", Json.arr [Json.obj [("id", Json.str "x")]])]) :=
  ⟨rfl, rfl, rfl,
   (cleanAndParseJSON_truncation_path "\x7b\"shapes\":[\x7b\"id\":\"x\"\x7d" 20
     rfl rfl rfl).1.trans rfl⟩

/-! ## C5: parser structure lemmas

The following development establishes that the text consumed by each
parsing function is an exact prefix of its input, begins and ends with
non-whitespace characters of known classes, and that parsing is invariant
under replacing the unconsumed remainder — the facts needed to relate
`cleanAndParseJSON` on markdown-free object texts to `jsonParse`. -/

/-- Every character of the list satisfies the predicate. -/
def AllChars (p : Char → Bool) (l : List Char) : Prop := ∀ c ∈ l, p c = true

/-- The head of the list, when present, falsifies the predicate. -/
def HeadNot (p : Char → Bool) (l : List Char) : Prop :=
  ∀ x, l.head? = some x → p x = false

/-- A remainder that cannot extend a preceding JSON number. -/
def TailSafe (l : List Char) : Prop := HeadNot isNumCont l

theorem headNot_nil (p : Char → Bool) : HeadNot p [] := by
  intro x hx
  simp at hx

theorem headNot_cons (p : Char → Bool) (c : Char) (l : List Char)
    (h : p c = false) : HeadNot p (c :: l) := by
  intro x hx
  simp at hx
  rw [hx] at h
  exact h

theorem takeWhile_dropWhile_append (p : Char → Bool) :
    ∀ a b : List Char, AllChars p a → HeadNot p b →
      (a ++ b).takeWhile p = a ∧ (a ++ b).dropWhile p = b := by
  intro a
  induction a with
  | nil =>
    intro b _ hb
    cases b with
    | nil => exact ⟨rfl, rfl⟩
    | cons x t =>
      have hx : p x = false := hb x rfl
      simp [List.takeWhile_cons, List.dropWhile_cons, hx]
  | cons c a ih =>
    intro b ha hb
    have hc : p c = true := ha c (List.mem_cons_self c a)
    have ha' : AllChars p a := fun x hx => ha x (List.mem_cons_of_mem c hx)
    have := ih b ha' hb
    simp [List.takeWhile_cons, List.dropWhile_cons, hc, this.1, this.2]

theorem dropWhile_of_headNot (p : Char → Bool) (l : List Char)
    (h : HeadNot p l) : l.dropWhile p = l := by
  cases l with
  | nil => rfl
  | cons x t => simp [List.dropWhile_cons, h x rfl]

theorem allChars_takeWhile (p : Char → Bool) (l : List Char) :
    AllChars p (l.takeWhile p) := fun _ hc => List.mem_takeWhile_imp hc

theorem headNot_dropWhile (p : Char → Bool) :
    ∀ l : List Char, HeadNot p (l.dropWhile p) := by
  intro l
  induction l with
  | nil => exact headNot_nil p
  | cons c t ih =>
    cases hc : p c with
    | true => simpa [List.dropWhile_cons, hc] using ih
    | false =>
      intro x hx
      simp [List.dropWhile_cons, hc] at hx
      rw [hx] at hc
      exact hc

theorem isJsonWs_imp_isJsWs (c : Char) (h : isJsonWs c = true) :
    isJsWs c = true := by
  unfold isJsonWs at h
  unfold isJsWs
  rw [decide_eq_true_iff] at h ⊢
  omega

theorem isValueStart_elim (c : Char) (h : isValueStart c = true) :
    c = '{' ∨ c = '[' ∨ c = '"' ∨ c = 't' ∨ c = 'f' ∨ c = 'n' ∨ c = '-' ∨
      isDigitC c = true := by
  unfold isValueStart at h
  simp only [Bool.or_eq_true, beq_iff_eq] at h
  tauto

theorem isDigitC_not_jsWs (c : Char) (h : isDigitC c = true) :
    isJsWs c = false := by
  unfold isDigitC at h
  unfold isJsWs
  rw [decide_eq_true_iff] at h
  rw [decide_eq_false_iff_not]
  omega

theorem isValueStart_not_jsWs (c : Char) (h : isValueStart c = true) :
    isJsWs c = false := by
  rcases isValueStart_elim c h with h | h | h | h | h | h | h | h
  · rw [h]; rfl
  · rw [h]; rfl
  · rw [h]; rfl
  · rw [h]; rfl
  · rw [h]; rfl
  · rw [h]; rfl
  · rw [h]; rfl
  · exact isDigitC_not_jsWs c h

theorem isValueEnd_elim (c : Char) (h : isValueEnd c = true) :
    c = '}' ∨ c = ']' ∨ c = '"' ∨ c = 'e' ∨ c = 'l' ∨ isDigitC c = true := by
  unfold isValueEnd at h
  simp only [Bool.or_eq_true, beq_iff_eq] at h
  tauto

theorem isValueEnd_not_jsWs (c : Char) (h : isValueEnd c = true) :
    isJsWs c = false := by
  rcases isValueEnd_elim c h with h | h | h | h | h | h
  · rw [h]; rfl
  · rw [h]; rfl
  · rw [h]; rfl
  · rw [h]; rfl
  · rw [h]; rfl
  · exact isDigitC_not_jsWs c h

theorem jsWs_false_imp_jsonWs_false (c : Char) (h : isJsWs c = false) :
    isJsonWs c = false := by
  cases hc : isJsonWs c with
  | false => rfl
  | true => rw [isJsonWs_imp_isJsWs c hc] at h; cases h

theorem isJsonWs_not_numCont (c : Char) (h : isJsonWs c = true) :
    isNumCont c = false := by
  unfold isJsonWs at h
  rw [decide_eq_true_iff] at h
  unfold isNumCont isDigitC
  have h1 : decide (0x30 ≤ c.toNat ∧ c.toNat ≤ 0x39) = false := by
    rw [decide_eq_false_iff_not]; omega
  have h2 : (c == '.') = false := by
    rw [beq_eq_false_iff_ne]
    intro hc
    rw [hc] at h
    simp at h
  have h3 : (c == 'e') = false := by
    rw [beq_eq_false_iff_ne]
    intro hc
    rw [hc] at h
    simp at h
  have h4 : (c == 'E') = false := by
    rw [beq_eq_false_iff_ne]
    intro hc
    rw [hc] at h
    simp at h
  rw [h1, h2, h3, h4]
  rfl

theorem getLast?_append_right (a b : List Char) (hb : b ≠ []) :
    (a ++ b).getLast? = b.getLast? := by
  induction a with
  | nil => rfl
  | cons c t ih =>
    rw [List.cons_append]
    rw [List.getLast?_cons]
    rw [ih]
    have : b.getLast? ≠ none := by
      cases b with
      | nil => exact absurd rfl hb
      | cons x xs => simp [List.getLast?_cons]
    cases hbl : b.getLast? with
    | none => exact absurd hbl this
    | some d =>
      cases hab : (t ++ b) with
      | nil =>
        exfalso
        rcases List.append_eq_nil.mp hab with ⟨_, h2⟩
        exact hb h2
      | cons y ys => simp

theorem tailSafe_headNot_digit (l : List Char) (h : TailSafe l) :
    HeadNot isDigitC l := by
  intro x hx
  have := h x hx
  unfold isNumCont at this
  rcases Bool.or_eq_false_iff.mp this with ⟨h1, _⟩
  rcases Bool.or_eq_false_iff.mp h1 with ⟨h2, _⟩
  rcases Bool.or_eq_false_iff.mp h2 with ⟨h3, _⟩
  exact h3

/-- A remainder whose head can extend neither a digit run nor start a
fraction part. -/
def FracSafe (l : List Char) : Prop :=
  ∀ x, l.head? = some x → isDigitC x = false ∧ x ≠ '.'

theorem tailSafe_fracSafe (l : List Char) (h : TailSafe l) : FracSafe l := by
  intro x hx
  have hn := h x hx
  unfold isNumCont at hn
  rcases Bool.or_eq_false_iff.mp hn with ⟨h1, _⟩
  rcases Bool.or_eq_false_iff.mp h1 with ⟨h2, hE⟩
  rcases Bool.or_eq_false_iff.mp h2 with ⟨hd, hdot⟩
  exact ⟨hd, by simpa using hdot⟩

theorem parseDigits_split (cs ds rest : List Char)
    (h : parseDigits cs = some (ds, rest)) :
    cs = ds ++ rest ∧ ds ≠ [] ∧ AllChars isDigitC ds ∧ HeadNot isDigitC rest ∧
    ∀ tail, HeadNot isDigitC tail → parseDigits (ds ++ tail) = some (ds, tail) := by
  unfold parseDigits at h
  cases htw : cs.takeWhile isDigitC with
  | nil => rw [htw] at h; cases h
  | cons d dt =>
    rw [htw] at h
    have hds : ds = d :: dt ∧ rest = cs.dropWhile isDigitC := by
      constructor
      · exact (Prod.mk.injEq _ _ _ _ ▸ (Option.some.injEq _ _ ▸ h)).1.symm
      · exact (Prod.mk.injEq _ _ _ _ ▸ (Option.some.injEq _ _ ▸ h)).2.symm
    obtain ⟨hds1, hds2⟩ := hds
    have hall : AllChars isDigitC ds := by
      rw [hds1, ← htw]
      exact allChars_takeWhile isDigitC cs
    have hrest : HeadNot isDigitC rest := by
      rw [hds2]
      exact headNot_dropWhile isDigitC cs
    refine ⟨?_, by rw [hds1]; simp, hall, hrest, ?_⟩
    · rw [hds1, hds2, ← htw]
      exact (List.takeWhile_append_dropWhile isDigitC cs).symm
    · intro tail htail
      have hsplit := takeWhile_dropWhile_append isDigitC ds tail hall htail
      unfold parseDigits
      rw [hsplit.1, hsplit.2, hds1]

theorem parseIntPart_split (cs ds rest : List Char)
    (h : parseIntPart cs = some (ds, rest)) :
    cs = ds ++ rest ∧ ds ≠ [] ∧ AllChars isDigitC ds ∧ HeadNot isDigitC rest ∧
    ∀ tail, HeadNot isDigitC tail →
      parseIntPart (ds ++ tail) = some (ds, tail) := by
  unfold parseIntPart at h
  cases cs with
  | nil => cases h
  | cons c rest' =>
    dsimp only at h
    by_cases hc : c = '0'
    · rw [if_pos hc] at h
      cases rest' with
      | nil =>
        simp only [Option.some.injEq, Prod.mk.injEq] at h
        obtain ⟨h1, h2⟩ := h
        subst h1; subst h2; subst hc
        refine ⟨rfl, by simp, ?_, headNot_nil _, ?_⟩
        · intro x hx; simp at hx; rw [hx]; rfl
        · intro tail htail
          unfold parseIntPart
          rw [List.cons_append, List.nil_append]
          dsimp only
          rw [if_pos rfl]
          cases tail with
          | nil => rfl
          | cons d t =>
            dsimp only
            rw [htail d rfl]
            rfl
      | cons d t =>
        dsimp only at h
        cases hd : isDigitC d with
        | true => rw [hd] at h; simp at h
        | false =>
          rw [hd] at h
          simp only [Bool.false_eq_true, if_false, Option.some.injEq,
            Prod.mk.injEq] at h
          obtain ⟨h1, h2⟩ := h
          subst h1; subst h2; subst hc
          refine ⟨rfl, by simp, ?_, headNot_cons _ _ _ hd, ?_⟩
          · intro x hx; simp at hx; rw [hx]; rfl
          · intro tail htail
            unfold parseIntPart
            rw [List.cons_append, List.nil_append]
            dsimp only
            rw [if_pos rfl]
            cases tail with
            | nil => rfl
            | cons d' t' =>
              dsimp only
              rw [htail d' rfl]
              rfl
    · rw [if_neg hc] at h
      cases hdg : isDigitC c with
      | false => rw [hdg] at h; simp at h
      | true =>
        rw [hdg] at h
        simp only [if_true] at h
        have hsplit0 := parseDigits_split (c :: rest') ds rest h
        obtain ⟨hsplit, hne, hall, hrest, hext⟩ := hsplit0
        refine ⟨hsplit, hne, hall, hrest, ?_⟩
        intro tail htail
        obtain ⟨dt, hdt⟩ : ∃ dt, ds = c :: dt := by
          cases ds with
          | nil => exact absurd rfl hne
          | cons d0 dt =>
            rw [List.cons_append] at hsplit
            exact ⟨dt, by rw [((List.cons.injEq _ _ _ _).mp hsplit).1]⟩
        unfold parseIntPart
        rw [hdt, List.cons_append]
        dsimp only
        rw [if_neg hc, hdg]
        simp only [if_true]
        rw [← List.cons_append, ← hdt]
        exact hext tail htail

theorem parseFracPart_split (cs fds rest : List Char)
    (h : parseFracPart cs = some (fds, rest)) :
    cs = (if fds.isEmpty then [] else '.' :: fds) ++ rest ∧
    AllChars isDigitC fds ∧
    (fds ≠ [] → HeadNot isDigitC rest) ∧
    ∀ tail, FracSafe tail →
      parseFracPart ((if fds.isEmpty then [] else '.' :: fds) ++ tail) =
        some (fds, tail) := by
  have hcases : (∃ r, cs = '.' :: r ∧ parseDigits r = some (fds, rest)) ∨
      (fds = [] ∧ rest = cs ∧ ∀ x r, cs = x :: r → x ≠ '.') := by
    unfold parseFracPart at h
    cases cs with
    | nil =>
      right
      simp only [Option.some.injEq, Prod.mk.injEq] at h
      exact ⟨h.1.symm, h.2.symm, fun x r hx => by cases hx⟩
    | cons x r =>
      by_cases hx : x = '.'
      · left
        subst hx
        exact ⟨r, rfl, h⟩
      · right
        have harm : (match x :: r with
            | '.' :: rest => parseDigits rest
            | _ => some ([], x :: r)) = some ([], x :: r) := by
          split
          · rename_i heq
            exact absurd ((List.cons.injEq _ _ _ _).mp heq.symm).1
              (fun hh => hx hh.symm)
          · rfl
        rw [harm] at h
        simp only [Option.some.injEq, Prod.mk.injEq] at h
        refine ⟨h.1.symm, h.2.symm, ?_⟩
        intro y r' hy
        rw [((List.cons.injEq _ _ _ _).mp hy).1] at hx
        exact fun hc => hx hc

  rcases hcases with ⟨r, hcs, hpd⟩ | ⟨hfds, hrest, hhead⟩
  · obtain ⟨hsplit, hne, hall, hrest, hext⟩ := parseDigits_split r fds rest hpd
    have hemp : fds.isEmpty = false := by
      cases fds with
      | nil => exact absurd rfl hne
      | cons a b => rfl
    rw [hemp]
    simp only [Bool.false_eq_true, if_false]
    refine ⟨by rw [hcs, hsplit, List.cons_append], hall, fun _ => hrest, ?_⟩
    intro tail htail
    unfold parseFracPart
    rw [List.cons_append]
    exact hext tail (fun x hx => (htail x hx).1)
  · subst hfds
    subst hrest
    refine ⟨by simp, ?_, fun hne => absurd rfl hne, ?_⟩
    · intro c hc
      simp at hc
    simp only [List.isEmpty_nil, if_true, List.nil_append]
    intro tail htail
    unfold parseFracPart
    cases tail with
    | nil => rfl
    | cons x t =>
      have hx := htail x rfl
      have harm : (match x :: t with
          | '.' :: rest => parseDigits rest
          | _ => some ([], x :: t)) = some ([], x :: t) := by
        split
        · rename_i heq
          exact absurd ((List.cons.injEq _ _ _ _).mp heq.symm).1
            (fun hh => hx.2 hh.symm)
        · rfl
      exact harm

theorem getLast?_all (p : Char → Bool) :
    ∀ l : List Char, l ≠ [] → AllChars p l →
      ∃ d, l.getLast? = some d ∧ p d = true := by
  intro l
  induction l with
  | nil => intro h; exact absurd rfl h
  | cons a t ih =>
    intro _ hall
    cases t with
    | nil => exact ⟨a, rfl, hall a (List.mem_cons_self a [])⟩
    | cons b t' =>
      have := ih (by simp) (fun c hc => hall c (List.mem_cons_of_mem a hc))
      obtain ⟨d, hd, hpd⟩ := this
      exact ⟨d, by rw [List.getLast?_cons_cons]; exact hd, hpd⟩

theorem isDigitC_ne_sign (c : Char) (h : isDigitC c = true) :
    c ≠ '+' ∧ c ≠ '-' ∧ c ≠ 'e' ∧ c ≠ 'E' ∧ c ≠ '.' := by
  unfold isDigitC at h
  rw [decide_eq_true_iff] at h
  refine ⟨?_, ?_, ?_, ?_, ?_⟩ <;> intro hc <;> rw [hc] at h <;> simp at h

theorem tailSafe_not_exp (l : List Char) (h : TailSafe l) :
    ∀ x, l.head? = some x → ¬(x = 'e' ∨ x = 'E') := by
  intro x hx hor
  have hn := h x hx
  unfold isNumCont at hn
  rcases Bool.or_eq_false_iff.mp hn with ⟨h1, hE⟩
  rcases Bool.or_eq_false_iff.mp h1 with ⟨h2, he⟩
  rcases hor with hc | hc
  · rw [hc] at he; simp at he
  · rw [hc] at hE; simp at hE

theorem expDigits_split (eneg : Bool) (r2 : List Char) (ez : Int)
    (rest : List Char) (h : expDigits eneg r2 = some (ez, rest)) :
    ∃ ds, r2 = ds ++ rest ∧ ds ≠ [] ∧ AllChars isDigitC ds ∧
      ∀ tail, HeadNot isDigitC tail →
        expDigits eneg (ds ++ tail) = some (ez, tail) := by
  unfold expDigits at h
  cases hpd : parseDigits r2 with
  | none => rw [hpd] at h; cases h
  | some pr =>
    obtain ⟨ds, r3⟩ := pr
    rw [hpd] at h
    simp only [Option.some.injEq, Prod.mk.injEq] at h
    obtain ⟨hz, hr⟩ := h
    subst hz; subst hr
    obtain ⟨hsplit, hne, hall, _, hext⟩ := parseDigits_split r2 ds _ hpd
    refine ⟨ds, hsplit, hne, hall, ?_⟩
    intro tail htail
    unfold expDigits
    rw [hext tail htail]

theorem parseExpPart_split (cs : List Char) (ez : Int) (rest : List Char)
    (h : parseExpPart cs = some (ez, rest)) :
    ∃ epre, cs = epre ++ rest ∧
      (epre = [] → ez = 0 ∧ rest = cs) ∧
      (∀ x t, epre = x :: t → (x = 'e' ∨ x = 'E')) ∧
      (epre ≠ [] → ∃ d, epre.getLast? = some d ∧ isDigitC d = true) ∧
      ∀ tail, TailSafe tail → parseExpPart (epre ++ tail) = some (ez, tail) := by
  unfold parseExpPart at h
  cases cs with
  | nil =>
    simp only [Option.some.injEq, Prod.mk.injEq] at h
    obtain ⟨hz, hr⟩ := h
    subst hz; subst hr
    refine ⟨[], rfl, fun _ => ⟨rfl, rfl⟩, ?_, ?_, ?_⟩
    · intro x t hx
      cases hx
    · intro hne
      exact absurd rfl hne
    intro tail htail
    rw [List.nil_append]
    unfold parseExpPart
    cases tail with
    | nil => rfl
    | cons x t =>
      dsimp only
      rw [if_neg (tailSafe_not_exp _ htail x rfl)]
  | cons c rest' =>
    dsimp only at h
    by_cases hce : c = 'e' ∨ c = 'E'
    · rw [if_pos hce] at h
      cases rest' with
      | nil =>
        exfalso
        unfold expDigits parseDigits at h
        simp at h
      | cons s r2 =>
        dsimp only at h
        by_cases hsp : s = '+'
        · rw [if_pos hsp] at h
          obtain ⟨ds, hsplit, hne, hall, hext⟩ := expDigits_split false r2 ez rest h
          refine ⟨c :: s :: ds,
            by rw [hsplit, List.cons_append, List.cons_append], ?_, ?_, ?_, ?_⟩
          · intro hx; cases hx
          · intro x t hx
            rw [((List.cons.injEq _ _ _ _).mp hx).1] at hce
            exact hce
          · intro _
            have := getLast?_all isDigitC ds hne hall
            obtain ⟨d, hd, hpd⟩ := this
            refine ⟨d, ?_, hpd⟩
            rw [show c :: s :: ds = (c :: s :: []) ++ ds by simp]
            rw [getLast?_append_right _ _ hne]
            exact hd
          · intro tail htail
            unfold parseExpPart
            rw [List.cons_append, List.cons_append]
            dsimp only
            rw [if_pos hce, if_pos hsp]
            exact hext tail (tailSafe_headNot_digit tail htail)
        · by_cases hsm : s = '-'
          · rw [if_neg hsp, if_pos hsm] at h
            obtain ⟨ds, hsplit, hne, hall, hext⟩ := expDigits_split true r2 ez rest h
            refine ⟨c :: s :: ds,
              by rw [hsplit, List.cons_append, List.cons_append], ?_, ?_, ?_, ?_⟩
            · intro hx; cases hx
            · intro x t hx
              rw [((List.cons.injEq _ _ _ _).mp hx).1] at hce
              exact hce
            · intro _
              have := getLast?_all isDigitC ds hne hall
              obtain ⟨d, hd, hpd⟩ := this
              refine ⟨d, ?_, hpd⟩
              rw [show c :: s :: ds = (c :: s :: []) ++ ds by simp]
              rw [getLast?_append_right _ _ hne]
              exact hd
            · intro tail htail
              unfold parseExpPart
              rw [List.cons_append, List.cons_append]
              dsimp only
              rw [if_pos hce, if_neg hsp, if_pos hsm]
              exact hext tail (tailSafe_headNot_digit tail htail)
          · rw [if_neg hsp, if_neg hsm] at h
            obtain ⟨ds, hsplit, hne, hall, hext⟩ :=
              expDigits_split false (s :: r2) ez rest h
            obtain ⟨dt, hdt⟩ : ∃ dt, ds = s :: dt := by
              cases ds with
              | nil => exact absurd rfl hne
              | cons d0 dt =>
                rw [List.cons_append] at hsplit
                exact ⟨dt, by rw [((List.cons.injEq _ _ _ _).mp hsplit).1]⟩
            refine ⟨c :: ds, ?_, ?_, ?_, ?_, ?_⟩
            · rw [List.cons_append]
              have hsr : s :: r2 = ds ++ rest := hsplit
              rw [← hsr]
            · intro hx; cases hx
            · intro x t hx
              rw [((List.cons.injEq _ _ _ _).mp hx).1] at hce
              exact hce
            · intro _
              have := getLast?_all isDigitC ds hne hall
              obtain ⟨d, hd, hpd⟩ := this
              refine ⟨d, ?_, hpd⟩
              rw [show c :: ds = [c] ++ ds by simp]
              rw [getLast?_append_right _ _ hne]
              exact hd
            · intro tail htail
              unfold parseExpPart
              rw [List.cons_append]
              rw [hdt, List.cons_append]
              dsimp only
              rw [if_pos hce, if_neg hsp, if_neg hsm]
              rw [← List.cons_append, ← hdt]
              exact hext tail (tailSafe_headNot_digit tail htail)
    · rw [if_neg hce] at h
      simp only [Option.some.injEq, Prod.mk.injEq] at h
      obtain ⟨hz, hr⟩ := h
      subst hz
      subst hr
      refine ⟨[], by rw [List.nil_append], fun _ => ⟨rfl, rfl⟩, ?_, ?_, ?_⟩
      · intro x t hx
        cases hx
      · intro hne
        exact absurd rfl hne
      intro tail htail
      rw [List.nil_append]
      unfold parseExpPart
      cases tail with
      | nil => rfl
      | cons x t =>
        dsimp only
        rw [if_neg (tailSafe_not_exp _ htail x rfl)]

theorem isDigitC_isValueStart (c : Char) (h : isDigitC c = true) :
    isValueStart c = true := by
  unfold isValueStart
  rw [h]
  simp

theorem isDigitC_isValueEnd (c : Char) (h : isDigitC c = true) :
    isValueEnd c = true := by
  unfold isValueEnd
  rw [h]
  simp

theorem parseNumTail_split (neg : Bool) (cs1 : List Char) (q : Int × Nat)
    (rest : List Char) (h : parseNumTail neg cs1 = some (q, rest)) :
    ∃ pre, cs1 = pre ++ rest ∧ pre ≠ [] ∧
      (∃ x t, pre = x :: t ∧ isDigitC x = true) ∧
      (∃ d, pre.getLast? = some d ∧ isDigitC d = true) ∧
      ∀ tail, TailSafe tail →
        parseNumTail neg (pre ++ tail) = some (q, tail) := by
  unfold parseNumTail at h
  cases hip : parseIntPart cs1 with
  | none => rw [hip] at h; cases h
  | some p1 =>
    obtain ⟨ids, r2⟩ := p1
    rw [hip] at h
    dsimp only at h
    cases hfp : parseFracPart r2 with
    | none => rw [hfp] at h; cases h
    | some p2 =>
      obtain ⟨fds, r3⟩ := p2
      rw [hfp] at h
      dsimp only at h
      cases hep : parseExpPart r3 with
      | none => rw [hep] at h; cases h
      | some p3 =>
        obtain ⟨ez, r4⟩ := p3
        rw [hep] at h
        dsimp only at h
        simp only [Option.some.injEq, Prod.mk.injEq] at h
        obtain ⟨hq, hr⟩ := h
        subst hq
        subst hr
        obtain ⟨hips, hidne, hidall, _, hipext⟩ :=
          parseIntPart_split cs1 ids r2 hip
        obtain ⟨hfps, hfall, _, hfpext⟩ := parseFracPart_split r2 fds r3 hfp
        obtain ⟨epre, heps, _, hephead, heplast, hepext⟩ :=
          parseExpPart_split r3 ez _ hep
        refine ⟨ids ++ ((if fds.isEmpty then [] else '.' :: fds) ++ epre),
          ?_, ?_, ?_, ?_, ?_⟩
        · rw [hips, hfps, heps]
          simp [List.append_assoc]
        · cases ids with
          | nil => exact absurd rfl hidne
          | cons x t => simp
        · cases ids with
          | nil => exact absurd rfl hidne
          | cons x t =>
            exact ⟨x, t ++ ((if fds.isEmpty then [] else '.' :: fds) ++ epre),
              by rw [List.cons_append], hidall x (List.mem_cons_self x t)⟩
        · by_cases hee : epre = []
          · subst hee
            rw [List.append_nil]
            by_cases hfe : fds = []
            · subst hfe
              simp only [List.isEmpty_nil, if_true, List.append_nil]
              exact getLast?_all isDigitC ids hidne hidall
            · have hfe' : fds.isEmpty = false := by
                cases fds with
                | nil => exact absurd rfl hfe
                | cons a b => rfl
              rw [hfe']
              simp only [Bool.false_eq_true, if_false]
              obtain ⟨d, hd, hpd⟩ := getLast?_all isDigitC fds hfe hfall
              refine ⟨d, ?_, hpd⟩
              rw [show ids ++ '.' :: fds = (ids ++ ['.']) ++ fds by
                simp [List.append_assoc]]
              rw [getLast?_append_right _ _ hfe]
              exact hd
          · obtain ⟨d, hd, hpd⟩ := heplast hee
            refine ⟨d, ?_, hpd⟩
            rw [show ids ++ ((if fds.isEmpty then [] else '.' :: fds) ++ epre) =
              (ids ++ (if fds.isEmpty then [] else '.' :: fds)) ++ epre by
              simp [List.append_assoc]]
            rw [getLast?_append_right _ _ hee]
            exact hd
        · intro tail htail
          have hX : HeadNot isDigitC
              ((if fds.isEmpty then [] else '.' :: fds) ++ (epre ++ tail)) := by
            by_cases hfe : fds = []
            · subst hfe
              simp only [List.isEmpty_nil, if_true, List.nil_append]
              cases hee : epre with
              | nil =>
                rw [List.nil_append]
                exact tailSafe_headNot_digit tail htail
              | cons x t =>
                rw [List.cons_append]
                rcases hephead x t hee with hx | hx
                · rw [hx]
                  exact headNot_cons _ _ _ rfl
                · rw [hx]
                  exact headNot_cons _ _ _ rfl
            · have hfe' : fds.isEmpty = false := by
                cases fds with
                | nil => exact absurd rfl hfe
                | cons a b => rfl
              rw [hfe']
              simp only [Bool.false_eq_true, if_false, List.cons_append]
              exact headNot_cons _ _ _ rfl
          have hF : FracSafe (epre ++ tail) := by
            cases hee : epre with
            | nil =>
              rw [List.nil_append]
              exact tailSafe_fracSafe tail htail
            | cons x t =>
              intro y hy
              rw [List.cons_append] at hy
              simp only [List.head?_cons, Option.some.injEq] at hy
              subst hy
              rcases hephead x t hee with hx | hx
              · rw [hx]
                exact ⟨rfl, by intro hc; cases hc⟩
              · rw [hx]
                exact ⟨rfl, by intro hc; cases hc⟩
          unfold parseNumTail
          rw [List.append_assoc, List.append_assoc]
          rw [hipext _ hX]
          dsimp only
          rw [hfpext _ hF]
          dsimp only
          rw [hepext tail htail]

theorem parseNumber_split (cs : List Char) (q : Int × Nat) (rest : List Char)
    (h : parseNumber cs = some (q, rest)) :
    ∃ pre, cs = pre ++ rest ∧ pre ≠ [] ∧
      (∀ x, pre.head? = some x → (x = '-' ∨ isDigitC x = true)) ∧
      (∃ d, pre.getLast? = some d ∧ isValueEnd d = true) ∧
      ∀ tail, TailSafe tail → parseNumber (pre ++ tail) = some (q, tail) := by
  unfold parseNumber at h
  cases cs with
  | nil =>
    exfalso
    unfold parseNumTail parseIntPart at h
    simp at h
  | cons c r =>
    by_cases hcm : c = '-'
    · subst hcm
      have h' : parseNumTail true r = some (q, rest) := h
      obtain ⟨pre, hsplit, hne, _, hlast, hext⟩ :=
        parseNumTail_split true r q rest h'
      refine ⟨'-' :: pre, by rw [hsplit, List.cons_append], by simp, ?_, ?_, ?_⟩
      · intro x hx
        simp only [List.head?_cons, Option.some.injEq] at hx
        subst hx
        exact Or.inl rfl
      · obtain ⟨d, hd, hpd⟩ := hlast
        refine ⟨d, ?_, isDigitC_isValueEnd d hpd⟩
        rw [show ('-' :: pre) = ['-'] ++ pre by rfl]
        rw [getLast?_append_right _ _ hne]
        exact hd
      · intro tail htail
        rw [List.cons_append]
        show parseNumber ('-' :: (pre ++ tail)) = some (q, tail)
        have : parseNumber ('-' :: (pre ++ tail)) =
            parseNumTail true (pre ++ tail) := rfl
        rw [this]
        exact hext tail htail
    · have harm : (match c :: r with
          | '-' :: rr => parseNumTail true rr
          | _ => parseNumTail false (c :: r)) = parseNumTail false (c :: r) := by
        split
        · rename_i heq
          exact absurd ((List.cons.injEq _ _ _ _).mp heq.symm).1
            (fun hh => hcm hh.symm)
        · rfl
      rw [harm] at h
      obtain ⟨pre, hsplit, hne, hhead, hlast, hext⟩ :=
        parseNumTail_split false (c :: r) q rest h
      obtain ⟨x, t, hxt, hxd⟩ := hhead
      refine ⟨pre, hsplit, hne, ?_, ?_, ?_⟩
      · intro y hy
        rw [hxt] at hy
        simp only [List.head?_cons, Option.some.injEq] at hy
        subst hy
        exact Or.inr hxd
      · obtain ⟨d, hd, hpd⟩ := hlast
        exact ⟨d, hd, isDigitC_isValueEnd d hpd⟩
      · intro tail htail
        unfold parseNumber
        rw [hxt, List.cons_append]
        have harm2 : (match x :: (t ++ tail) with
            | '-' :: rr => parseNumTail true rr
            | _ => parseNumTail false (x :: (t ++ tail))) =
            parseNumTail false (x :: (t ++ tail)) := by
          split
          · rename_i heq
            have hx1 : x = '-' := ((List.cons.injEq _ _ _ _).mp heq.symm).1.symm
            rw [hx1] at hxd
            cases hxd
          · rfl
        rw [harm2]
        rw [← List.cons_append, ← hxt]
        exact hext tail htail

theorem parseStringBody_split_aux :
    ∀ n, ∀ cs : List Char, cs.length ≤ n → ∀ out rest,
      parseStringBody cs = some (out, rest) →
      ∃ pre, cs = pre ++ rest ∧ pre ≠ [] ∧ pre.getLast? = some '"' ∧
        ∀ tail, parseStringBody (pre ++ tail) = some (out, tail) := by
  intro n
  induction n with
  | zero =>
    intro cs hlen out rest h
    cases cs with
    | nil => cases h
    | cons c t => simp at hlen
  | succ n ih =>
    intro cs hlen out rest h
    cases cs with
    | nil => cases h
    | cons c cs' =>
      simp only [List.length_cons] at hlen
      unfold parseStringBody at h
      by_cases hq : c = '"'
      · rw [if_pos hq] at h
        simp only [Option.some.injEq, Prod.mk.injEq] at h
        obtain ⟨ho, hr⟩ := h
        subst ho
        subst hr
        subst hq
        refine ⟨['"'], rfl, by simp, rfl, ?_⟩
        intro tail
        unfold parseStringBody
        simp only [List.cons_append, List.nil_append]
        simp only [if_true]
      · rw [if_neg hq] at h
        by_cases hb : c = '\\'
        · rw [if_pos hb] at h
          cases cs' with
          | nil => cases h
          | cons e rest2 =>
            simp only [List.length_cons] at hlen
            dsimp only at h
            by_cases hu : e = 'u'
            · rw [if_pos hu] at h
              cases rest2 with
              | nil => cases h
              | cons h1 r1 =>
                cases r1 with
                | nil => cases h
                | cons h2 r2' =>
                  cases r2' with
                  | nil => cases h
                  | cons h3 r3' =>
                    cases r3' with
                    | nil => cases h
                    | cons h4 rest3 =>
                      simp only [List.length_cons] at hlen
                      dsimp only at h
                      cases hv1 : hexVal h1 with
                      | none => rw [hv1] at h; cases h
                      | some v1 =>
                        rw [hv1] at h
                        cases hv2 : hexVal h2 with
                        | none => rw [hv2] at h; cases h
                        | some v2 =>
                          rw [hv2] at h
                          cases hv3 : hexVal h3 with
                          | none => rw [hv3] at h; cases h
                          | some v3 =>
                            rw [hv3] at h
                            cases hv4 : hexVal h4 with
                            | none => rw [hv4] at h; cases h
                            | some v4 =>
                              rw [hv4] at h
                              dsimp only at h
                              by_cases hval : ((v1 * 16 + v2) * 16 + v3) * 16 + v4 < 0xd800 ∨
                                  (0xe000 ≤ ((v1 * 16 + v2) * 16 + v3) * 16 + v4 ∧
                                   ((v1 * 16 + v2) * 16 + v3) * 16 + v4 < 0x110000)
                              · rw [if_pos hval] at h
                                cases hrec : parseStringBody rest3 with
                                | none => rw [hrec] at h; cases h
                                | some pr =>
                                  obtain ⟨s', r'⟩ := pr
                                  rw [hrec] at h
                                  dsimp only at h
                                  simp only [Option.some.injEq, Prod.mk.injEq] at h
                                  obtain ⟨ho, hr⟩ := h
                                  subst ho
                                  subst hr
                                  obtain ⟨pre', hsp, hne, hlast, hext⟩ :=
                                    ih rest3 (by omega) s' _ hrec
                                  subst hb
                                  subst hu
                                  refine ⟨'\\' :: 'u' :: h1 :: h2 :: h3 :: h4 :: pre',
                                    by rw [hsp]; simp, by simp, ?_, ?_⟩
                                  · rw [show ('\\' :: 'u' :: h1 :: h2 :: h3 :: h4 :: pre') =
                                      ['\\', 'u', h1, h2, h3, h4] ++ pre' by rfl]
                                    rw [getLast?_append_right _ _ hne]
                                    exact hlast
                                  · intro tail
                                    unfold parseStringBody
                                    simp only [List.cons_append]
                                    simp only [if_true]
                                    rw [hv1, hv2, hv3, hv4]
                                    dsimp only
                                    rw [if_pos hval, hext tail, if_neg hq]
                              · rw [if_neg hval] at h
                                cases h
            · rw [if_neg hu] at h
              cases hec : escChar e with
              | none => rw [hec] at h; cases h
              | some ec =>
                rw [hec] at h
                dsimp only at h
                cases hrec : parseStringBody rest2 with
                | none => rw [hrec] at h; cases h
                | some pr =>
                  obtain ⟨s', r'⟩ := pr
                  rw [hrec] at h
                  dsimp only at h
                  simp only [Option.some.injEq, Prod.mk.injEq] at h
                  obtain ⟨ho, hr⟩ := h
                  subst ho
                  subst hr
                  obtain ⟨pre', hsp, hne, hlast, hext⟩ :=
                    ih rest2 (by omega) s' _ hrec
                  subst hb
                  refine ⟨'\\' :: e :: pre', by rw [hsp]; simp, by simp, ?_, ?_⟩
                  · rw [show ('\\' :: e :: pre') = ['\\', e] ++ pre' by rfl]
                    rw [getLast?_append_right _ _ hne]
                    exact hlast
                  · intro tail
                    unfold parseStringBody
                    simp only [List.cons_append]
                    simp only [if_true]
                    rw [if_neg hu, hec]
                    dsimp only
                    rw [hext tail, if_neg hq]
        · rw [if_neg hb] at h
          by_cases hctl : c.toNat < 0x20
          · rw [if_pos hctl] at h
            cases h
          · rw [if_neg hctl] at h
            cases hrec : parseStringBody cs' with
            | none => rw [hrec] at h; cases h
            | some pr =>
              obtain ⟨s', r'⟩ := pr
              rw [hrec] at h
              dsimp only at h
              simp only [Option.some.injEq, Prod.mk.injEq] at h
              obtain ⟨ho, hr⟩ := h
              subst ho
              subst hr
              obtain ⟨pre', hsp, hne, hlast, hext⟩ :=
                ih cs' (by omega) s' _ hrec
              refine ⟨c :: pre', by rw [hsp, List.cons_append], by simp, ?_, ?_⟩
              · rw [show (c :: pre') = [c] ++ pre' by rfl]
                rw [getLast?_append_right _ _ hne]
                exact hlast
              · intro tail
                unfold parseStringBody
                simp only [List.cons_append]
                rw [if_neg hq, if_neg hb, if_neg hctl, hext tail]

theorem parseStringBody_split (cs out rest : List Char)
    (h : parseStringBody cs = some (out, rest)) :
    ∃ pre, cs = pre ++ rest ∧ pre ≠ [] ∧ pre.getLast? = some '"' ∧
      ∀ tail, parseStringBody (pre ++ tail) = some (out, tail) :=
  parseStringBody_split_aux cs.length cs (Nat.le_refl _) out rest h

theorem numHead_ne (x : Char) (hx : x = '-' ∨ isDigitC x = true) :
    x ≠ '{' ∧ x ≠ '[' ∧ x ≠ '"' ∧ x ≠ 't' ∧ x ≠ 'f' ∧ x ≠ 'n' := by
  cases hx with
  | inl h =>
    subst h
    exact ⟨by decide, by decide, by decide, by decide, by decide, by decide⟩
  | inr h =>
    refine ⟨?_, ?_, ?_, ?_, ?_, ?_⟩ <;> intro he <;> rw [he] at h <;>
      exact absurd h (by decide)

theorem numHead_isValueStart (x : Char) (hx : x = '-' ∨ isDigitC x = true) :
    isValueStart x = true := by
  cases hx with
  | inl h => subst h; rfl
  | inr h => exact isDigitC_isValueStart x h

theorem ws_split (cs : List Char) :
    cs = cs.takeWhile isJsonWs ++ skipWs cs := by
  unfold skipWs
  rw [List.takeWhile_append_dropWhile]

theorem skipWs_all_append (a b : List Char) (ha : AllChars isJsonWs a)
    (hb : HeadNot isJsonWs b) : skipWs (a ++ b) = b :=
  (takeWhile_dropWhile_append isJsonWs a b ha hb).2

theorem headNot_append_of_head (p : Char → Bool) (a b : List Char)
    (ha : HeadNot p a) (hne : a ≠ []) : HeadNot p (a ++ b) := by
  cases a with
  | nil => exact absurd rfl hne
  | cons x t =>
    intro y hy
    simp only [List.cons_append, List.head?_cons, Option.some.injEq] at hy
    subst hy
    exact ha x rfl

theorem headNot_jsonWs_of_valueStart (l : List Char)
    (h : ∀ x, l.head? = some x → isValueStart x = true) :
    HeadNot isJsonWs l := fun x hx =>
  jsWs_false_imp_jsonWs_false x (isValueStart_not_jsWs x (h x hx))

theorem headNot_of_head_eq (p : Char → Bool) (l : List Char) (c : Char)
    (hl : l.head? = some c) (hc : p c = false) : HeadNot p l := by
  intro x hx
  rw [hl] at hx
  injection hx with hx
  subst hx
  exact hc

theorem tailSafe_ws_cons (ws : List Char) (hws : AllChars isJsonWs ws)
    (z : Char) (hz : isNumCont z = false) (t : List Char) :
    TailSafe (ws ++ z :: t) := by
  intro x hx
  cases ws with
  | nil =>
    simp only [List.nil_append, List.head?_cons, Option.some.injEq] at hx
    subst hx
    exact hz
  | cons w wt =>
    simp only [List.cons_append, List.head?_cons, Option.some.injEq] at hx
    subst hx
    exact isJsonWs_not_numCont w (hws w (List.mem_cons_self w wt))

theorem getLast?_concat_char (a : List Char) (d : Char) :
    (a ++ [d]).getLast? = some d := by
  rw [getLast?_append_right a [d] (by simp)]
  rfl

theorem head?_append_left (a b : List Char) (ha : a ≠ []) :
    (a ++ b).head? = a.head? := by
  cases a with
  | nil => exact absurd rfl ha
  | cons x t => rfl

/-- The text consumed for a JSON value is a nonempty exact prefix beginning
with a value-start character and ending with a value-end character; an object
value begins at a brace; parsing is stable under replacing the remainder by
any non-number-continuing tail, given enough fuel. -/
def ValueSplit (f : Nat) : Prop :=
  ∀ cs v rest, parseValue f cs = some (v, rest) →
    ∃ pre, cs = pre ++ rest ∧ pre ≠ [] ∧
      (∀ x, pre.head? = some x → isValueStart x = true) ∧
      (∀ d, pre.getLast? = some d → isValueEnd d = true) ∧
      (∀ gs, v = Json.obj gs → pre.head? = some '{') ∧
      (∀ f' tail, pre.length < f' → TailSafe tail →
        parseValue f' (pre ++ tail) = some (v, tail))

/-- The text consumed for object members runs from the first key's quote to
the closing brace and is remainder-stable. -/
def MembersSplit (f : Nat) : Prop :=
  ∀ cs ms rest, parseMembers f cs = some (ms, rest) →
    ∃ pre, cs = pre ++ rest ∧ pre.head? = some '"' ∧
      pre.getLast? = some '}' ∧
      (∀ f' tail, pre.length < f' → parseMembers f' (pre ++ tail) = some (ms, tail))

/-- The text consumed for array elements runs from the first element to the
closing bracket and is remainder-stable. -/
def ElementsSplit (f : Nat) : Prop :=
  ∀ cs vs rest, parseElements f cs = some (vs, rest) →
    ∃ pre, cs = pre ++ rest ∧ pre ≠ [] ∧
      (∀ x, pre.head? = some x → isValueStart x = true) ∧
      pre.getLast? = some ']' ∧
      (∀ f' tail, pre.length < f' → parseElements f' (pre ++ tail) = some (vs, tail))

theorem elementsSplit_succ (f : Nat) (ihv : ValueSplit f)
    (ihe : ElementsSplit f) : ElementsSplit (f + 1) := by
  intro cs vs rest h
  unfold parseElements at h
  cases hpv : parseValue f cs with
  | none => rw [hpv] at h; cases h
  | some p =>
    obtain ⟨v, r1⟩ := p
    rw [hpv] at h
    dsimp only at h
    obtain ⟨vpre, hvs, hvne, hvhead, _, _, hvext⟩ := ihv cs v r1 hpv
    cases hsw : skipWs r1 with
    | nil => rw [hsw] at h; cases h
    | cons z r3 =>
      rw [hsw] at h
      dsimp only at h
      by_cases hz1 : z = ','
      · rw [if_pos hz1] at h
        subst hz1
        have e1 : r1 = r1.takeWhile isJsonWs ++ (',' :: r3) := by
          conv_lhs => rw [ws_split r1]
          rw [hsw]
        cases hpe : parseElements f (skipWs r3) with
        | none => rw [hpe] at h; cases h
        | some p2 =>
          obtain ⟨vs', r⟩ := p2
          rw [hpe] at h
          dsimp only at h
          simp only [Option.some.injEq, Prod.mk.injEq] at h
          obtain ⟨h1, h2⟩ := h
          subst h1
          subst h2
          obtain ⟨epre, hes, hene, hehead, helast, heext⟩ :=
            ihe (skipWs r3) vs' r hpe
          have e2 : r3 = r3.takeWhile isJsonWs ++ (epre ++ r) := by
            conv_lhs => rw [ws_split r3]
            rw [hes]
          refine ⟨vpre ++ r1.takeWhile isJsonWs ++
            (',' :: r3.takeWhile isJsonWs) ++ epre, ?_, ?_, ?_, ?_, ?_⟩
          · rw [hvs]
            conv_lhs => rw [e1]
            conv_lhs => rw [e2]
            simp [List.append_assoc]
          · simp [hvne]
          · intro x hx
            rw [head?_append_left _ _ (by simp [hvne]),
                head?_append_left _ _ (by simp [hvne]),
                head?_append_left _ _ hvne] at hx
            exact hvhead x hx
          · rw [getLast?_append_right _ _ hene]
            exact helast
          · intro f' tail hf'
            cases f' with
            | zero => exact absurd hf' (Nat.not_lt_zero _)
            | succ g =>
              simp only [List.length_append, List.length_cons] at hf'
              simp only [List.append_assoc, List.cons_append]
              unfold parseElements
              have hts : TailSafe (r1.takeWhile isJsonWs ++
                  (',' :: (r3.takeWhile isJsonWs ++ (epre ++ tail)))) :=
                tailSafe_ws_cons (r1.takeWhile isJsonWs)
                  (allChars_takeWhile _ _) ',' (by decide)
                  (r3.takeWhile isJsonWs ++ (epre ++ tail))
              have hpv2 := hvext g (r1.takeWhile isJsonWs ++
                (',' :: (r3.takeWhile isJsonWs ++ (epre ++ tail))))
                (by omega) hts
              rw [hpv2]
              dsimp only
              have hsk1 : skipWs (r1.takeWhile isJsonWs ++
                  (',' :: (r3.takeWhile isJsonWs ++ (epre ++ tail)))) =
                  ',' :: (r3.takeWhile isJsonWs ++ (epre ++ tail)) :=
                skipWs_all_append _ _ (allChars_takeWhile _ _)
                  (headNot_cons _ _ _ (by decide))
              rw [hsk1]
              dsimp only
              rw [if_pos rfl]
              have hsk2 : skipWs (r3.takeWhile isJsonWs ++ (epre ++ tail)) =
                  epre ++ tail :=
                skipWs_all_append _ _ (allChars_takeWhile _ _)
                  (headNot_append_of_head _ _ _
                    (headNot_jsonWs_of_valueStart epre hehead) hene)
              rw [hsk2]
              rw [heext g tail (by omega)]
      · rw [if_neg hz1] at h
        by_cases hz2 : z = ']'
        · rw [if_pos hz2] at h
          subst hz2
          have e1 : r1 = r1.takeWhile isJsonWs ++ (']' :: r3) := by
            conv_lhs => rw [ws_split r1]
            rw [hsw]
          simp only [Option.some.injEq, Prod.mk.injEq] at h
          obtain ⟨h1, h2⟩ := h
          subst h1
          subst h2
          refine ⟨vpre ++ r1.takeWhile isJsonWs ++ [']'], ?_, ?_, ?_, ?_, ?_⟩
          · rw [hvs]
            conv_lhs => rw [e1]
            simp [List.append_assoc]
          · simp [hvne]
          · intro x hx
            rw [head?_append_left _ _ (by simp [hvne]),
                head?_append_left _ _ hvne] at hx
            exact hvhead x hx
          · exact getLast?_concat_char _ ']'
          · intro f' tail hf'
            cases f' with
            | zero => exact absurd hf' (Nat.not_lt_zero _)
            | succ g =>
              simp only [List.length_append, List.length_cons,
                List.length_nil] at hf'
              simp only [List.append_assoc, List.cons_append,
                List.singleton_append, List.nil_append]
              unfold parseElements
              have hts : TailSafe (r1.takeWhile isJsonWs ++ (']' :: tail)) :=
                tailSafe_ws_cons (r1.takeWhile isJsonWs)
                  (allChars_takeWhile _ _) ']' (by decide) tail
              have hpv2 := hvext g (r1.takeWhile isJsonWs ++ (']' :: tail))
                (by omega) hts
              rw [hpv2]
              dsimp only
              have hsk1 : skipWs (r1.takeWhile isJsonWs ++ (']' :: tail)) =
                  ']' :: tail :=
                skipWs_all_append _ _ (allChars_takeWhile _ _)
                  (headNot_cons _ _ _ (by decide))
              rw [hsk1]
              dsimp only
              rw [if_neg (by decide), if_pos rfl]
        · rw [if_neg hz2] at h
          cases h

theorem ne_nil_of_head (l : List Char) (c : Char) (h : l.head? = some c) :
    l ≠ [] := by
  intro hl
  subst hl
  simp at h

theorem membersSplit_succ (f : Nat) (ihv : ValueSplit f)
    (ihm : MembersSplit f) : MembersSplit (f + 1) := by
  intro cs ms rest h
  unfold parseMembers at h
  cases cs with
  | nil => cases h
  | cons c0 kr =>
    dsimp only at h
    by_cases hc0 : c0 = '"'
    · rw [if_pos hc0] at h
      subst hc0
      cases hsb : parseStringBody kr with
      | none => rw [hsb] at h; cases h
      | some p =>
        obtain ⟨k, r1⟩ := p
        rw [hsb] at h
        dsimp only at h
        obtain ⟨kpre, hksplit, hkne, hklast, hkext⟩ :=
          parseStringBody_split kr k r1 hsb
        cases hsw1 : skipWs r1 with
        | nil => rw [hsw1] at h; cases h
        | cons y r3 =>
          rw [hsw1] at h
          dsimp only at h
          by_cases hy : y = ':'
          · rw [if_pos hy] at h
            subst hy
            have e2 : r1 = r1.takeWhile isJsonWs ++ (':' :: r3) := by
              conv_lhs => rw [ws_split r1]
              rw [hsw1]
            cases hpv : parseValue f (skipWs r3) with
            | none => rw [hpv] at h; cases h
            | some p2 =>
              obtain ⟨v, r5⟩ := p2
              rw [hpv] at h
              dsimp only at h
              obtain ⟨vpre, hvsplit, hvne, hvhead, _, _, hvext⟩ :=
                ihv (skipWs r3) v r5 hpv
              have e3 : r3 = r3.takeWhile isJsonWs ++ (vpre ++ r5) := by
                conv_lhs => rw [ws_split r3]
                rw [hvsplit]
              cases hsw2 : skipWs r5 with
              | nil => rw [hsw2] at h; cases h
              | cons z r7 =>
                rw [hsw2] at h
                dsimp only at h
                by_cases hz1 : z = ','
                · rw [if_pos hz1] at h
                  subst hz1
                  have e4 : r5 = r5.takeWhile isJsonWs ++ (',' :: r7) := by
                    conv_lhs => rw [ws_split r5]
                    rw [hsw2]
                  cases hm2 : parseMembers f (skipWs r7) with
                  | none => rw [hm2] at h; cases h
                  | some p3 =>
                    obtain ⟨ms', r⟩ := p3
                    rw [hm2] at h
                    dsimp only at h
                    simp only [Option.some.injEq, Prod.mk.injEq] at h
                    obtain ⟨h1, h2⟩ := h
                    subst h1
                    subst h2
                    obtain ⟨mpre2, hm2split, hm2head, hm2last, hm2ext⟩ :=
                      ihm (skipWs r7) ms' r hm2
                    have e5 : r7 = r7.takeWhile isJsonWs ++ (mpre2 ++ r) := by
                      conv_lhs => rw [ws_split r7]
                      rw [hm2split]
                    have hm2ne := ne_nil_of_head mpre2 '"' hm2head
                    refine ⟨('"' :: kpre) ++ r1.takeWhile isJsonWs ++
                      (':' :: r3.takeWhile isJsonWs) ++ vpre ++
                      r5.takeWhile isJsonWs ++ (',' :: r7.takeWhile isJsonWs) ++
                      mpre2, ?_, ?_, ?_, ?_⟩
                    · conv_lhs => rw [hksplit]
                      conv_lhs => rw [e2]
                      conv_lhs => rw [e3]
                      conv_lhs => rw [e4]
                      conv_lhs => rw [e5]
                      simp [List.append_assoc]
                    · simp [List.cons_append, List.append_assoc]
                    · rw [getLast?_append_right _ _ hm2ne]
                      exact hm2last
                    · intro f' tail hf'
                      cases f' with
                      | zero => exact absurd hf' (Nat.not_lt_zero _)
                      | succ g =>
                        simp only [List.length_append, List.length_cons] at hf'
                        simp only [List.append_assoc, List.cons_append]
                        unfold parseMembers
                        dsimp only
                        rw [if_pos rfl]
                        rw [hkext]
                        dsimp only
                        have hsk1 : skipWs (r1.takeWhile isJsonWs ++
                            (':' :: (r3.takeWhile isJsonWs ++ (vpre ++
                            (r5.takeWhile isJsonWs ++ (',' ::
                            (r7.takeWhile isJsonWs ++ (mpre2 ++ tail)))))))) =
                            ':' :: (r3.takeWhile isJsonWs ++ (vpre ++
                            (r5.takeWhile isJsonWs ++ (',' ::
                            (r7.takeWhile isJsonWs ++ (mpre2 ++ tail)))))) :=
                          skipWs_all_append _ _ (allChars_takeWhile _ _)
                            (headNot_cons _ _ _ (by decide))
                        rw [hsk1]
                        dsimp only
                        rw [if_pos rfl]
                        have hsk2 : skipWs (r3.takeWhile isJsonWs ++ (vpre ++
                            (r5.takeWhile isJsonWs ++ (',' ::
                            (r7.takeWhile isJsonWs ++ (mpre2 ++ tail)))))) =
                            vpre ++ (r5.takeWhile isJsonWs ++ (',' ::
                            (r7.takeWhile isJsonWs ++ (mpre2 ++ tail)))) :=
                          skipWs_all_append _ _ (allChars_takeWhile _ _)
                            (headNot_append_of_head _ _ _
                              (headNot_jsonWs_of_valueStart vpre hvhead) hvne)
                        rw [hsk2]
                        have hts : TailSafe (r5.takeWhile isJsonWs ++ (',' ::
                            (r7.takeWhile isJsonWs ++ (mpre2 ++ tail)))) :=
                          tailSafe_ws_cons _ (allChars_takeWhile _ _) ','
                            (by decide) _
                        rw [hvext g _ (by omega) hts]
                        dsimp only
                        have hsk3 : skipWs (r5.takeWhile isJsonWs ++ (',' ::
                            (r7.takeWhile isJsonWs ++ (mpre2 ++ tail)))) =
                            ',' :: (r7.takeWhile isJsonWs ++ (mpre2 ++ tail)) :=
                          skipWs_all_append _ _ (allChars_takeWhile _ _)
                            (headNot_cons _ _ _ (by decide))
                        rw [hsk3]
                        dsimp only
                        rw [if_pos rfl]
                        have hsk4 : skipWs (r7.takeWhile isJsonWs ++
                            (mpre2 ++ tail)) = mpre2 ++ tail :=
                          skipWs_all_append _ _ (allChars_takeWhile _ _)
                            (headNot_append_of_head _ _ _
                              (headNot_of_head_eq _ _ '"' hm2head (by decide))
                              hm2ne)
                        rw [hsk4]
                        rw [hm2ext g tail (by omega)]
                · rw [if_neg hz1] at h
                  by_cases hz2 : z = '}'
                  · rw [if_pos hz2] at h
                    subst hz2
                    have e4 : r5 = r5.takeWhile isJsonWs ++ ('}' :: r7) := by
                      conv_lhs => rw [ws_split r5]
                      rw [hsw2]
                    simp only [Option.some.injEq, Prod.mk.injEq] at h
                    obtain ⟨h1, h2⟩ := h
                    subst h1
                    subst h2
                    refine ⟨('"' :: kpre) ++ r1.takeWhile isJsonWs ++
                      (':' :: r3.takeWhile isJsonWs) ++ vpre ++
                      r5.takeWhile isJsonWs ++ ['}'], ?_, ?_, ?_, ?_⟩
                    · conv_lhs => rw [hksplit]
                      conv_lhs => rw [e2]
                      conv_lhs => rw [e3]
                      conv_lhs => rw [e4]
                      simp [List.append_assoc]
                    · simp [List.cons_append, List.append_assoc]
                    · exact getLast?_concat_char _ '}'
                    · intro f' tail hf'
                      cases f' with
                      | zero => exact absurd hf' (Nat.not_lt_zero _)
                      | succ g =>
                        simp only [List.length_append, List.length_cons,
                          List.length_nil] at hf'
                        simp only [List.append_assoc, List.cons_append,
                          List.singleton_append, List.nil_append]
                        unfold parseMembers
                        dsimp only
                        rw [if_pos rfl]
                        rw [hkext]
                        dsimp only
                        have hsk1 : skipWs (r1.takeWhile isJsonWs ++
                            (':' :: (r3.takeWhile isJsonWs ++ (vpre ++
                            (r5.takeWhile isJsonWs ++ ('}' :: tail)))))) =
                            ':' :: (r3.takeWhile isJsonWs ++ (vpre ++
                            (r5.takeWhile isJsonWs ++ ('}' :: tail)))) :=
                          skipWs_all_append _ _ (allChars_takeWhile _ _)
                            (headNot_cons _ _ _ (by decide))
                        rw [hsk1]
                        dsimp only
                        rw [if_pos rfl]
                        have hsk2 : skipWs (r3.takeWhile isJsonWs ++ (vpre ++
                            (r5.takeWhile isJsonWs ++ ('}' :: tail)))) =
                            vpre ++ (r5.takeWhile isJsonWs ++ ('}' :: tail)) :=
                          skipWs_all_append _ _ (allChars_takeWhile _ _)
                            (headNot_append_of_head _ _ _
                              (headNot_jsonWs_of_valueStart vpre hvhead) hvne)
                        rw [hsk2]
                        have hts : TailSafe (r5.takeWhile isJsonWs ++
                            ('}' :: tail)) :=
                          tailSafe_ws_cons _ (allChars_takeWhile _ _) '}'
                            (by decide) _
                        rw [hvext g _ (by omega) hts]
                        dsimp only
                        have hsk3 : skipWs (r5.takeWhile isJsonWs ++
                            ('}' :: tail)) = '}' :: tail :=
                          skipWs_all_append _ _ (allChars_takeWhile _ _)
                            (headNot_cons _ _ _ (by decide))
                        rw [hsk3]
                        dsimp only
                        rw [if_neg (by decide), if_pos rfl]
                  · rw [if_neg hz2] at h
                    cases h
          · rw [if_neg hy] at h
            cases h
    · rw [if_neg hc0] at h
      cases h

theorem isValueStart_ne_close (x : Char) (h : isValueStart x = true) :
    x ≠ '}' ∧ x ≠ ']' := by
  refine ⟨?_, ?_⟩ <;> intro he <;> rw [he] at h <;> exact absurd h (by decide)

theorem parseValue_succ (f : Nat) (cs : List Char) :
    parseValue (f + 1) cs =
    match cs with
    | [] => none
    | c :: rest =>
      if c = '{' then
        match skipWs rest with
        | [] => none
        | z :: r2 =>
          if z = '}' then some (.obj [], r2)
          else
            match parseMembers f (z :: r2) with
            | some (ms, r) => some (.obj ms, r)
            | none => none
      else if c = '[' then
        match skipWs rest with
        | [] => none
        | z :: r2 =>
          if z = ']' then some (.arr [], r2)
          else
            match parseElements f (z :: r2) with
            | some (vs, r) => some (.arr vs, r)
            | none => none
      else if c = '"' then
        match parseStringBody rest with
        | some (s, r) => some (.str (String.mk s), r)
        | none => none
      else if c = 't' then
        match rest with
        | c1 :: c2 :: c3 :: r2 =>
          if c1 = 'r' ∧ c2 = 'u' ∧ c3 = 'e' then some (.bool true, r2) else none
        | _ => none
      else if c = 'f' then
        match rest with
        | c1 :: c2 :: c3 :: c4 :: r2 =>
          if c1 = 'a' ∧ c2 = 'l' ∧ c3 = 's' ∧ c4 = 'e' then
            some (.bool false, r2)
          else none
        | _ => none
      else if c = 'n' then
        match rest with
        | c1 :: c2 :: c3 :: r2 =>
          if c1 = 'u' ∧ c2 = 'l' ∧ c3 = 'l' then some (.null, r2) else none
        | _ => none
      else if c = '-' ∨ isDigitC c then
        match parseNumber cs with
        | some (q, r) => some (.num q.1 q.2, r)
        | none => none
      else none := rfl

theorem valueSplit_succ (f : Nat) (ihm : MembersSplit f)
    (ihe : ElementsSplit f) : ValueSplit (f + 1) := by
  intro cs v rest h
  rw [parseValue_succ] at h
  cases cs with
  | nil => cases h
  | cons c rest' =>
    dsimp only at h
    by_cases hc1 : c = '{'
    · rw [if_pos hc1] at h
      subst hc1
      cases hsw : skipWs rest' with
      | nil => rw [hsw] at h; cases h
      | cons z r2 =>
        rw [hsw] at h
        dsimp only at h
        by_cases hz : z = '}'
        · rw [if_pos hz] at h
          subst hz
          have e1 : rest' = rest'.takeWhile isJsonWs ++ ('}' :: r2) := by
            conv_lhs => rw [ws_split rest']
            rw [hsw]
          simp only [Option.some.injEq, Prod.mk.injEq] at h
          obtain ⟨h1, h2⟩ := h
          subst h1
          subst h2
          refine ⟨('{' :: rest'.takeWhile isJsonWs) ++ ['}'],
            ?_, ?_, ?_, ?_, ?_, ?_⟩
          · conv_lhs => rw [e1]
            simp [List.append_assoc]
          · simp
          · intro x hx
            rw [head?_append_left _ _ (by simp)] at hx
            simp only [List.head?_cons, Option.some.injEq] at hx
            subst hx
            rfl
          · intro d hd
            rw [getLast?_concat_char _ '}'] at hd
            injection hd with hd
            subst hd
            rfl
          · intro gs _
            rw [head?_append_left _ _ (by simp)]
            rfl
          · intro f' tail hf' _
            cases f' with
            | zero => exact absurd hf' (Nat.not_lt_zero _)
            | succ g =>
              simp only [List.append_assoc, List.cons_append,
                List.singleton_append, List.nil_append]
              rw [parseValue_succ]
              dsimp only
              rw [if_pos rfl]
              have hsk : skipWs (rest'.takeWhile isJsonWs ++ ('}' :: tail)) =
                  '}' :: tail :=
                skipWs_all_append _ _ (allChars_takeWhile _ _)
                  (headNot_cons _ _ _ (by decide))
              rw [hsk]
              dsimp only
              rw [if_pos rfl]
        · rw [if_neg hz] at h
          have e1 : rest' = rest'.takeWhile isJsonWs ++ (z :: r2) := by
            conv_lhs => rw [ws_split rest']
            rw [hsw]
          cases hm : parseMembers f (z :: r2) with
          | none => rw [hm] at h; cases h
          | some p =>
            obtain ⟨msx, r⟩ := p
            rw [hm] at h
            dsimp only at h
            simp only [Option.some.injEq, Prod.mk.injEq] at h
            obtain ⟨h1, h2⟩ := h
            subst h1
            subst h2
            obtain ⟨mpre, hmsplit, hmhead, hmlast, hmext⟩ :=
              ihm (z :: r2) msx r hm
            have hmne := ne_nil_of_head mpre '"' hmhead
            obtain ⟨mt, rfl⟩ : ∃ mt, mpre = '"' :: mt := by
              cases mpre with
              | nil => exact absurd rfl hmne
              | cons m0 mt =>
                simp only [List.head?_cons, Option.some.injEq] at hmhead
                exact ⟨mt, by rw [hmhead]⟩
            refine ⟨('{' :: rest'.takeWhile isJsonWs) ++ ('"' :: mt),
              ?_, ?_, ?_, ?_, ?_, ?_⟩
            · conv_lhs => rw [e1]
              rw [hmsplit]
              simp [List.append_assoc]
            · simp
            · intro x hx
              rw [head?_append_left _ _ (by simp)] at hx
              simp only [List.head?_cons, Option.some.injEq] at hx
              subst hx
              rfl
            · intro d hd
              rw [getLast?_append_right _ _ hmne, hmlast] at hd
              injection hd with hd
              subst hd
              rfl
            · intro gs _
              rw [head?_append_left _ _ (by simp)]
              rfl
            · intro f' tail hf' _
              cases f' with
              | zero => exact absurd hf' (Nat.not_lt_zero _)
              | succ g =>
                simp only [List.length_append, List.length_cons] at hf'
                simp only [List.append_assoc, List.cons_append]
                rw [parseValue_succ]
                dsimp only
                rw [if_pos rfl]
                have hsk : skipWs (rest'.takeWhile isJsonWs ++
                    ('"' :: (mt ++ tail))) = '"' :: (mt ++ tail) :=
                  skipWs_all_append _ _ (allChars_takeWhile _ _)
                    (headNot_cons _ _ _ (by decide))
                rw [hsk]
                dsimp only
                rw [if_neg (by decide)]
                have hm2 := hmext g tail (by simp only [List.length_cons]; omega)
                rw [List.cons_append] at hm2
                rw [hm2]
    · rw [if_neg hc1] at h
      by_cases hc2 : c = '['
      · rw [if_pos hc2] at h
        subst hc2
        cases hsw : skipWs rest' with
        | nil => rw [hsw] at h; cases h
        | cons z r2 =>
          rw [hsw] at h
          dsimp only at h
          by_cases hz : z = ']'
          · rw [if_pos hz] at h
            subst hz
            have e1 : rest' = rest'.takeWhile isJsonWs ++ (']' :: r2) := by
              conv_lhs => rw [ws_split rest']
              rw [hsw]
            simp only [Option.some.injEq, Prod.mk.injEq] at h
            obtain ⟨h1, h2⟩ := h
            subst h1
            subst h2
            refine ⟨('[' :: rest'.takeWhile isJsonWs) ++ [']'],
              ?_, ?_, ?_, ?_, ?_, ?_⟩
            · conv_lhs => rw [e1]
              simp [List.append_assoc]
            · simp
            · intro x hx
              rw [head?_append_left _ _ (by simp)] at hx
              simp only [List.head?_cons, Option.some.injEq] at hx
              subst hx
              rfl
            · intro d hd
              rw [getLast?_concat_char _ ']'] at hd
              injection hd with hd
              subst hd
              rfl
            · intro gs hgs
              simp at hgs
            · intro f' tail hf' _
              cases f' with
              | zero => exact absurd hf' (Nat.not_lt_zero _)
              | succ g =>
                simp only [List.append_assoc, List.cons_append,
                  List.singleton_append, List.nil_append]
                rw [parseValue_succ]
                dsimp only
                rw [if_neg (by decide), if_pos rfl]
                have hsk : skipWs (rest'.takeWhile isJsonWs ++ (']' :: tail)) =
                    ']' :: tail :=
                  skipWs_all_append _ _ (allChars_takeWhile _ _)
                    (headNot_cons _ _ _ (by decide))
                rw [hsk]
                dsimp only
                rw [if_pos rfl]
          · rw [if_neg hz] at h
            have e1 : rest' = rest'.takeWhile isJsonWs ++ (z :: r2) := by
              conv_lhs => rw [ws_split rest']
              rw [hsw]
            cases he : parseElements f (z :: r2) with
            | none => rw [he] at h; cases h
            | some p =>
              obtain ⟨vsx, r⟩ := p
              rw [he] at h
              dsimp only at h
              simp only [Option.some.injEq, Prod.mk.injEq] at h
              obtain ⟨h1, h2⟩ := h
              subst h1
              subst h2
              obtain ⟨epre, hesplit, hene, hehead, helast, heext⟩ :=
                ihe (z :: r2) vsx r he
              obtain ⟨e0, et, rfl⟩ : ∃ e0 et, epre = e0 :: et := by
                cases epre with
                | nil => exact absurd rfl hene
                | cons e0 et => exact ⟨e0, et, rfl⟩
              have he0 := hehead e0 rfl
              refine ⟨('[' :: rest'.takeWhile isJsonWs) ++ (e0 :: et),
                ?_, ?_, ?_, ?_, ?_, ?_⟩
              · conv_lhs => rw [e1]
                rw [hesplit]
                simp [List.append_assoc]
              · simp
              · intro x hx
                rw [head?_append_left _ _ (by simp)] at hx
                simp only [List.head?_cons, Option.some.injEq] at hx
                subst hx
                rfl
              · intro d hd
                rw [getLast?_append_right _ _ hene, helast] at hd
                injection hd with hd
                subst hd
                rfl
              · intro gs hgs
                simp at hgs
              · intro f' tail hf' _
                cases f' with
                | zero => exact absurd hf' (Nat.not_lt_zero _)
                | succ g =>
                  simp only [List.length_append, List.length_cons] at hf'
                  simp only [List.append_assoc, List.cons_append]
                  rw [parseValue_succ]
                  dsimp only
                  rw [if_neg (by decide), if_pos rfl]
                  have hsk : skipWs (rest'.takeWhile isJsonWs ++
                      (e0 :: (et ++ tail))) = e0 :: (et ++ tail) :=
                    skipWs_all_append _ _ (allChars_takeWhile _ _)
                      (headNot_cons _ _ _
                        (jsWs_false_imp_jsonWs_false e0
                          (isValueStart_not_jsWs e0 he0)))
                  rw [hsk]
                  dsimp only
                  rw [if_neg (isValueStart_ne_close e0 he0).2]
                  have he2 := heext g tail
                    (by simp only [List.length_cons]; omega)
                  rw [List.cons_append] at he2
                  rw [he2]
      · rw [if_neg hc2] at h
        by_cases hc3 : c = '"'
        · rw [if_pos hc3] at h
          subst hc3
          cases hsb : parseStringBody rest' with
          | none => rw [hsb] at h; cases h
          | some p =>
            obtain ⟨sl, r⟩ := p
            rw [hsb] at h
            dsimp only at h
            simp only [Option.some.injEq, Prod.mk.injEq] at h
            obtain ⟨h1, h2⟩ := h
            subst h1
            subst h2
            obtain ⟨spre, hssplit, hsne, hslast, hsext⟩ :=
              parseStringBody_split rest' sl r hsb
            have hlastq : ('"' :: spre).getLast? = some '"' := by
              rw [show ('"' :: spre) = ['"'] ++ spre from rfl]
              rw [getLast?_append_right _ _ hsne]
              exact hslast
            refine ⟨'"' :: spre, ?_, ?_, ?_, ?_, ?_, ?_⟩
            · rw [hssplit]
              simp [List.cons_append]
            · simp
            · intro x hx
              simp only [List.head?_cons, Option.some.injEq] at hx
              subst hx
              rfl
            · intro d hd
              rw [hlastq] at hd
              injection hd with hd
              subst hd
              rfl
            · intro gs hgs
              simp at hgs
            · intro f' tail hf' _
              cases f' with
              | zero => exact absurd hf' (Nat.not_lt_zero _)
              | succ g =>
                simp only [List.cons_append]
                rw [parseValue_succ]
                dsimp only
                rw [if_neg (by decide), if_neg (by decide), if_pos rfl]
                rw [hsext tail]
        · rw [if_neg hc3] at h
          by_cases hc4 : c = 't'
          · rw [if_pos hc4] at h
            subst hc4
            split at h
            · rename_i c1 c2 c3 r2
              by_cases hcond : c1 = 'r' ∧ c2 = 'u' ∧ c3 = 'e'
              · rw [if_pos hcond] at h
                obtain ⟨hr1, hr2, hr3⟩ := hcond
                subst hr1
                subst hr2
                subst hr3
                simp only [Option.some.injEq, Prod.mk.injEq] at h
                obtain ⟨h1, h2⟩ := h
                subst h1
                subst h2
                refine ⟨['t', 'r', 'u', 'e'], rfl, by simp, ?_, ?_, ?_, ?_⟩
                · intro x hx
                  simp only [List.head?_cons, Option.some.injEq] at hx
                  subst hx
                  rfl
                · intro d hd
                  have hl : (['t', 'r', 'u', 'e'] : List Char).getLast? =
                      some 'e' := rfl
                  rw [hl] at hd
                  injection hd with hd
                  subst hd
                  rfl
                · intro gs hgs
                  simp at hgs
                · intro f' tail hf' _
                  cases f' with
                  | zero => exact absurd hf' (Nat.not_lt_zero _)
                  | succ g =>
                    simp only [List.cons_append, List.nil_append]
                    rw [parseValue_succ]
                    dsimp only
                    rw [if_neg (by decide), if_neg (by decide),
                      if_neg (by decide), if_pos rfl]
                    rw [if_pos ⟨rfl, rfl, rfl⟩]
              · rw [if_neg hcond] at h
                cases h
            · cases h
          · rw [if_neg hc4] at h
            by_cases hc5 : c = 'f'
            · rw [if_pos hc5] at h
              subst hc5
              split at h
              · rename_i c1 c2 c3 c4 r2
                by_cases hcond : c1 = 'a' ∧ c2 = 'l' ∧ c3 = 's' ∧ c4 = 'e'
                · rw [if_pos hcond] at h
                  obtain ⟨hr1, hr2, hr3, hr4⟩ := hcond
                  subst hr1
                  subst hr2
                  subst hr3
                  subst hr4
                  simp only [Option.some.injEq, Prod.mk.injEq] at h
                  obtain ⟨h1, h2⟩ := h
                  subst h1
                  subst h2
                  refine ⟨['f', 'a', 'l', 's', 'e'], rfl, by simp, ?_, ?_, ?_, ?_⟩
                  · intro x hx
                    simp only [List.head?_cons, Option.some.injEq] at hx
                    subst hx
                    rfl
                  · intro d hd
                    have hl : (['f', 'a', 'l', 's', 'e'] : List Char).getLast? =
                        some 'e' := rfl
                    rw [hl] at hd
                    injection hd with hd
                    subst hd
                    rfl
                  · intro gs hgs
                    simp at hgs
                  · intro f' tail hf' _
                    cases f' with
                    | zero => exact absurd hf' (Nat.not_lt_zero _)
                    | succ g =>
                      simp only [List.cons_append, List.nil_append]
                      rw [parseValue_succ]
                      dsimp only
                      rw [if_neg (by decide), if_neg (by decide),
                        if_neg (by decide), if_neg (by decide), if_pos rfl]
                      rw [if_pos ⟨rfl, rfl, rfl, rfl⟩]
                · rw [if_neg hcond] at h
                  cases h
              · cases h
            · rw [if_neg hc5] at h
              by_cases hc6 : c = 'n'
              · rw [if_pos hc6] at h
                subst hc6
                split at h
                · rename_i c1 c2 c3 r2
                  by_cases hcond : c1 = 'u' ∧ c2 = 'l' ∧ c3 = 'l'
                  · rw [if_pos hcond] at h
                    obtain ⟨hr1, hr2, hr3⟩ := hcond
                    subst hr1
                    subst hr2
                    subst hr3
                    simp only [Option.some.injEq, Prod.mk.injEq] at h
                    obtain ⟨h1, h2⟩ := h
                    subst h1
                    subst h2
                    refine ⟨['n', 'u', 'l', 'l'], rfl, by simp, ?_, ?_, ?_, ?_⟩
                    · intro x hx
                      simp only [List.head?_cons, Option.some.injEq] at hx
                      subst hx
                      rfl
                    · intro d hd
                      have hl : (['n', 'u', 'l', 'l'] : List Char).getLast? =
                          some 'l' := rfl
                      rw [hl] at hd
                      injection hd with hd
                      subst hd
                      rfl
                    · intro gs hgs
                      simp at hgs
                    · intro f' tail hf' _
                      cases f' with
                      | zero => exact absurd hf' (Nat.not_lt_zero _)
                      | succ g =>
                        simp only [List.cons_append, List.nil_append]
                        rw [parseValue_succ]
                        dsimp only
                        rw [if_neg (by decide), if_neg (by decide),
                          if_neg (by decide), if_neg (by decide),
                          if_neg (by decide), if_pos rfl]
                        rw [if_pos ⟨rfl, rfl, rfl⟩]
                  · rw [if_neg hcond] at h
                    cases h
                · cases h
              · rw [if_neg hc6] at h
                by_cases hnum : c = '-' ∨ isDigitC c = true
                · rw [if_pos hnum] at h
                  cases hn : parseNumber (c :: rest') with
                  | none => rw [hn] at h; cases h
                  | some p =>
                    obtain ⟨q, r⟩ := p
                    rw [hn] at h
                    dsimp only at h
                    simp only [Option.some.injEq, Prod.mk.injEq] at h
                    obtain ⟨h1, h2⟩ := h
                    subst h1
                    subst h2
                    obtain ⟨pre, hsplit, hne, hheadD, hlastD, hnext⟩ :=
                      parseNumber_split (c :: rest') q r hn
                    refine ⟨pre, hsplit, hne, ?_, ?_, ?_, ?_⟩
                    · intro x hx
                      exact numHead_isValueStart x (hheadD x hx)
                    · intro d hd
                      obtain ⟨d', hd', hpd'⟩ := hlastD
                      rw [hd'] at hd
                      injection hd with hd
                      subst hd
                      exact hpd'
                    · intro gs hgs
                      simp at hgs
                    · intro f' tail hf' htail
                      cases pre with
                      | nil => exact absurd rfl hne
                      | cons x pt =>
                        have hx := hheadD x rfl
                        have hfacts := numHead_ne x hx
                        cases f' with
                        | zero => exact absurd hf' (Nat.not_lt_zero _)
                        | succ g =>
                          simp only [List.cons_append]
                          rw [parseValue_succ]
                          dsimp only
                          rw [if_neg hfacts.1, if_neg hfacts.2.1,
                            if_neg hfacts.2.2.1, if_neg hfacts.2.2.2.1,
                            if_neg hfacts.2.2.2.2.1, if_neg hfacts.2.2.2.2.2,
                            if_pos hx]
                          have hnx := hnext tail htail
                          rw [List.cons_append] at hnx
                          rw [hnx]
                · rw [if_neg hnum] at h
                  cases h

theorem parseSplit : ∀ f, ValueSplit f ∧ MembersSplit f ∧ ElementsSplit f := by
  intro f
  induction f with
  | zero =>
    exact ⟨fun cs v rest h => Option.noConfusion h,
      fun cs ms rest h => Option.noConfusion h,
      fun cs vs rest h => Option.noConfusion h⟩
  | succ f IH =>
    exact ⟨valueSplit_succ f IH.2.1 IH.2.2,
      membersSplit_succ f IH.1 IH.2.1,
      elementsSplit_succ f IH.1 IH.2.2⟩

theorem mem_of_mem_dropWhile (p : Char → Bool) :
    ∀ (l : List Char) (x : Char), x ∈ l.dropWhile p → x ∈ l := by
  intro l
  induction l with
  | nil => intro x hx; simp at hx
  | cons c t ih =>
    intro x hx
    rw [List.dropWhile_cons] at hx
    by_cases hc : p c = true
    · rw [if_pos hc] at hx
      exact List.mem_cons_of_mem c (ih x hx)
    · rw [if_neg hc] at hx
      exact hx

theorem matchFenceAt_none (cs : List Char) (hb : ¬ '`' ∈ cs) :
    matchFenceAt cs = none := by
  unfold matchFenceAt
  have h7 : ¬ cs.take 7 = ['`', '`', '`', 'j', 's', 'o', 'n'] := by
    intro he
    apply hb
    apply List.take_subset 7 cs
    rw [he]
    simp
  rw [if_neg h7]
  cases hd : cs.dropWhile isJsWs with
  | nil => rfl
  | cons c r =>
    have hc : c ≠ '`' := by
      intro he
      apply hb
      apply mem_of_mem_dropWhile isJsWs cs
      rw [hd, he]
      exact List.mem_cons_self _ _
    split
    · rename_i r2 heq
      exact absurd ((List.cons.injEq _ _ _ _).mp heq).1 hc
    · rfl

theorem stripFencesAux_id : ∀ f cs, ¬ '`' ∈ cs → stripFencesAux f cs = cs := by
  intro f
  induction f with
  | zero => intro cs _; rfl
  | succ f ih =>
    intro cs hb
    cases cs with
    | nil => rfl
    | cons c rest =>
      unfold stripFencesAux
      rw [matchFenceAt_none (c :: rest) hb]
      dsimp only
      rw [ih rest (fun hm => hb (List.mem_cons_of_mem c hm))]

theorem stripFences_id (cs : List Char) (hb : ¬ '`' ∈ cs) :
    stripFences cs = cs := stripFencesAux_id cs.length cs hb

/-- C5: the repair function returns the same structure as direct JSON
parsing on well-formed input — provable in the amended form: for every
input that contains no backtick character and directly parses to a JSON
object, `cleanAndParseJSON` succeeds with exactly that object.  (The
unrestricted claim is refuted by `cleanAndParseJSON_not_identity`:
a well-formed top-level array is cut to its first embedded object.) -/
theorem cleanAndParseJSON_valid_object (s : String)
    (fs : List (String × Json)) (hb : ¬ '`' ∈ s.data)
    (hp : jsonParse s.data = some (Json.obj fs)) :
    cleanAndParseJSON s = .ok (Json.obj fs) := by
  unfold jsonParse at hp
  cases hpv : parseValue (s.data.length + 1) (skipWs s.data) with
  | none => rw [hpv] at hp; cases hp
  | some p =>
    obtain ⟨v, rest⟩ := p
    rw [hpv] at hp
    dsimp only at hp
    by_cases hre : skipWs rest = []
    · rw [if_pos hre] at hp
      injection hp with hp
      subst hp
      obtain ⟨pre, hsplit, hne, _, hlast, hobj, hext⟩ :=
        (parseSplit (s.data.length + 1)).1 (skipWs s.data) (Json.obj fs)
          rest hpv
      have hpre_head : pre.head? = some '{' := hobj fs rfl
      obtain ⟨pt, rfl⟩ : ∃ pt, pre = '{' :: pt := by
        cases pre with
        | nil => exact absurd rfl hne
        | cons p0 pt =>
          simp only [List.head?_cons, Option.some.injEq] at hpre_head
          exact ⟨pt, by rw [hpre_head]⟩
      have hrest_ws : AllChars isJsonWs rest := by
        unfold skipWs at hre
        exact List.dropWhile_eq_nil_iff.mp hre
      have hsd : s.data = s.data.takeWhile isJsonWs ++ (('{' :: pt) ++ rest) := by
        conv_lhs => rw [ws_split s.data]
        rw [hsplit]
      have hsf : stripFences s.data = s.data := stripFences_id s.data hb
      have hA1 : AllChars isJsWs (s.data.takeWhile isJsonWs) := fun c hc =>
        isJsonWs_imp_isJsWs c (allChars_takeWhile isJsonWs s.data c hc)
      have hstep1 : s.data.dropWhile isJsWs = ('{' :: pt) ++ rest := by
        conv_lhs => rw [hsd]
        exact (takeWhile_dropWhile_append isJsWs _ _ hA1
          (headNot_append_of_head _ _ _ (headNot_cons _ _ _ (by decide))
            (by simp))).2
      have hA2 : AllChars isJsWs rest.reverse := fun c hc =>
        isJsonWs_imp_isJsWs c (hrest_ws c (List.mem_reverse.mp hc))
      obtain ⟨d, hd, hdv⟩ :
          ∃ d, ('{' :: pt).getLast? = some d ∧ isValueEnd d = true := by
        have hd := List.getLast?_eq_getLast ('{' :: pt) (by simp)
        exact ⟨_, hd, hlast _ hd⟩
      have hH2 : HeadNot isJsWs ('{' :: pt).reverse :=
        headNot_of_head_eq _ _ d (by rw [List.head?_reverse]; exact hd)
          (isValueEnd_not_jsWs d hdv)
      have htrim : jsTrim (stripFences s.data) = '{' :: pt := by
        rw [hsf]
        unfold jsTrim
        rw [hstep1, List.reverse_append]
        rw [(takeWhile_dropWhile_append isJsWs rest.reverse
          ('{' :: pt).reverse hA2 hH2).2]
        exact List.reverse_reverse _
      have hclean : cleanTextOf s = '{' :: pt := by
        unfold cleanTextOf
        dsimp only
        rw [htrim]
        rw [show ('{' :: pt).findIdx? (· == '{') = some 0 from by
          simp [List.findIdx?_cons]]
        dsimp only
        exact List.drop_zero _
      have hskp : skipWs ('{' :: pt) = '{' :: pt :=
        dropWhile_of_headNot _ _ (headNot_cons _ _ _ (by decide))
      have hpv2 : parseValue (('{' :: pt).length + 1) ('{' :: pt) =
          some (Json.obj fs, []) := by
        have hx := hext (('{' :: pt).length + 1) [] (by omega) (headNot_nil _)
        rw [List.append_nil] at hx
        exact hx
      have hjp : jsonParse ('{' :: pt) = some (Json.obj fs) := by
        unfold jsonParse
        rw [hskp, hpv2]
        dsimp only
        rw [if_pos (show skipWs ([] : List Char) = [] from rfl)]
      unfold cleanAndParseJSON
      dsimp only
      rw [hclean, hjp]
    · rw [if_neg hre] at hp
      cases hp

/-- Counterexample to the unrestricted C5 claim: the well-formed JSON text
`[\x7b"a":"b"\x7d]` parses directly to a one-element array, but the repair
function's first-brace extraction cuts it to the inner object, so repair
does not return the same structure as direct parsing. -/
theorem cleanAndParseJSON_not_identity :
    jsonParse "[\x7b\"a\":\"b\"\x7d]".data =
      some (Json.arr [Json.obj [("a", Json.str "b")]]) ∧
    cleanAndParseJSON "[\x7b\"a\":\"b\"\x7d]" =
      .ok (Json.obj [("a", Json.str "b")]) ∧
    Json.arr [Json.obj [("a", Json.str "b")]] ≠
      Json.obj [("a", Json.str "b")] :=
  ⟨rfl, rfl, fun h => Json.noConfusion h⟩

/-- Witness for C5 at a concrete backtick-free object input. -/
theorem cleanAndParseJSON_valid_object_witness :
    ¬ '`' ∈ ("\x7b\"a\":1\x7d" : String).data ∧
    jsonParse ("\x7b\"a\":1\x7d" : String).data =
      some (Json.obj [("a", Json.num 1 0)]) ∧
    cleanAndParseJSON "\x7b\"a\":1\x7d" = .ok (Json.obj [("a", Json.num 1 0)]) :=
  ⟨by decide, rfl,
    cleanAndParseJSON_valid_object "\x7b\"a\":1\x7d" [("a", Json.num 1 0)]
      (by decide) rfl⟩
